import Mathlib

/-!
Verification of the token-caching core of the `insomnia-plugin-aws-cognito-token`
repository (`src/plugin.js`).

The development shallowly embeds the plugin's code:

* `validToken`   — `src/plugin.js` lines 45-59 (the Validity Checker); the clock
  read `Date.now().valueOf() / 1000` is made an explicit `now : Int` parameter.
* `base64url`    — `src/plugin.js` lines 62-68 (padding strip and URL-safe
  character replacement applied to a base64 string).
* `errorToken`   — `src/plugin.js` lines 70-86 (the Error Token Factory).
* `run`          — `src/plugin.js` lines 89-156 (the Cache Orchestrator); the
  `context.store` collaborator becomes an explicit association list, the
  Authentication Client becomes a function parameter, thrown errors become
  `Except.error`, and the calls to the two external collaborators are recorded
  in an event trace so that "the cache was not touched" and "the client was not
  invoked" are stateable.

The token wire format is produced/consumed through external libraries
(`CryptoJS.enc.Base64.stringify`, `JSON.stringify`, `jwt-decode`).  Those are
modelled from the spec (§4.1, §6, §9): segment = base64url (no padding) of the
UTF-8 bytes of the JSON text of the payload; `jwtDecode` takes the second
dot-separated segment and inverts that pipeline.  All times are modelled as
integers (seconds).
-/

namespace Cognito

/-- A decoded token payload: the three claims the plugin ever reads
(`error`, `exp`, `nbf`); every other claim is ignored by the code. -/
structure Payload where
  error : Option String
  exp : Option Int
  nbf : Option Int
deriving DecidableEq, Repr

/-- A JSON value as far as the plugin's payloads are concerned:
strings and integer numbers. -/
inductive JVal where
  | str (s : String)
  | int (i : Int)
deriving DecidableEq, Repr

/-! ### Decimal numerals (JSON number serialization of integer times) -/

/-- The character of a decimal digit. -/
def digitChar (d : Nat) : Char := Char.ofNat (48 + d)

/-- Decimal digits of `n`, most significant first; `fuel`-driven so that the
definition is structural (the fuel is always taken to be `n` itself). -/
def natToCharsAux : Nat → Nat → List Char
  | 0, _ => []
  | fuel + 1, n => if n = 0 then [] else natToCharsAux fuel (n / 10) ++ [digitChar (n % 10)]

/-- Decimal numeral of a natural number. -/
def natToChars (n : Nat) : List Char :=
  if n = 0 then ['0'] else natToCharsAux n n

/-- Decimal numeral of an integer (JSON serialization of an integer Number). -/
def intToChars (i : Int) : List Char :=
  if i < 0 then '-' :: natToChars i.natAbs else natToChars i.natAbs

/-- Is `c` a decimal digit? -/
def isDigitChar (c : Char) : Bool := 48 ≤ c.toNat && c.toNat ≤ 57

/-- Value of a digit run, most significant first, on top of accumulator `acc`. -/
def digitsVal : List Char → Nat → Nat
  | [], acc => acc
  | c :: r, acc => digitsVal r (acc * 10 + (c.toNat - 48))

/-- Parse a non-empty maximal run of decimal digits. -/
def parseNatChars (l : List Char) : Option (Nat × List Char) :=
  let ds := l.takeWhile isDigitChar
  if ds = [] then none else some (digitsVal ds 0, l.dropWhile isDigitChar)

/-! ### JSON string escaping and the JSON-subset parser
(model of `JSON.stringify` / `JSON.parse`, which are external to the repo) -/

/-- The character of a hexadecimal digit. -/
def hexDigitChar (d : Nat) : Char :=
  if d < 10 then Char.ofNat (48 + d) else Char.ofNat (87 + d)

/-- Value of a hexadecimal digit character. -/
def hexVal (c : Char) : Option Nat :=
  if 48 ≤ c.toNat ∧ c.toNat ≤ 57 then some (c.toNat - 48)
  else if 97 ≤ c.toNat ∧ c.toNat ≤ 102 then some (c.toNat - 87)
  else if 65 ≤ c.toNat ∧ c.toNat ≤ 70 then some (c.toNat - 55)
  else none

/-- Escaping, as in JSON stringification, of one character inside a string literal. -/
def jsonEscapeChar (c : Char) : List Char :=
  if c = '"' then ['\\', '"']
  else if c = '\\' then ['\\', '\\']
  else if c = '\n' then ['\\', 'n']
  else if c = '\r' then ['\\', 'r']
  else if c = '\t' then ['\\', 't']
  else if c = '\x08' then ['\\', 'b']
  else if c = '\x0c' then ['\\', 'f']
  else if c.toNat < 32 then
    ['\\', 'u', '0', '0', hexDigitChar (c.toNat / 16), hexDigitChar (c.toNat % 16)]
  else [c]

/-- Escaping, as in JSON stringification, of a character sequence. -/
def jsonEscape : List Char → List Char
  | [] => []
  | c :: r => jsonEscapeChar c ++ jsonEscape r

/-- The full JSON string literal (quotes included) for `s`. -/
def jsonStringChars (s : String) : List Char :=
  '"' :: jsonEscape s.data ++ ['"']

/-- Parse the body of a JSON string literal (the opening quote already
consumed); returns the decoded characters and the input after the
closing quote. -/
def parseJStringBody : List Char → Option (List Char × List Char)
  | [] => none
  | c :: rest =>
    if c = '"' then some ([], rest)
    else if c = '\\' then
      match rest with
      | [] => none
      | e :: r =>
        if e = '"' then (parseJStringBody r).map (fun p => ('"' :: p.1, p.2))
        else if e = '\\' then (parseJStringBody r).map (fun p => ('\\' :: p.1, p.2))
        else if e = '/' then (parseJStringBody r).map (fun p => ('/' :: p.1, p.2))
        else if e = 'n' then (parseJStringBody r).map (fun p => ('\n' :: p.1, p.2))
        else if e = 'r' then (parseJStringBody r).map (fun p => ('\r' :: p.1, p.2))
        else if e = 't' then (parseJStringBody r).map (fun p => ('\t' :: p.1, p.2))
        else if e = 'b' then (parseJStringBody r).map (fun p => ('\x08' :: p.1, p.2))
        else if e = 'f' then (parseJStringBody r).map (fun p => ('\x0c' :: p.1, p.2))
        else if e = 'u' then
          match r with
          | h1 :: h2 :: h3 :: h4 :: r2 =>
            match hexVal h1, hexVal h2, hexVal h3, hexVal h4 with
            | some v1, some v2, some v3, some v4 =>
              (parseJStringBody r2).map
                (fun p => (Char.ofNat (((v1 * 16 + v2) * 16 + v3) * 16 + v4) :: p.1, p.2))
            | _, _, _, _ => none
          | _ => none
        else none
    else (parseJStringBody rest).map (fun p => (c :: p.1, p.2))

/-- Parse one JSON value of the supported subset (string or integer). -/
def parseJVal (l : List Char) : Option (JVal × List Char) :=
  match l with
  | [] => none
  | c :: rest =>
    if c = '"' then (parseJStringBody rest).map (fun p => (JVal.str (String.mk p.1), p.2))
    else if c = '-' then (parseNatChars rest).map (fun p => (JVal.int (-(p.1 : Int)), p.2))
    else (parseNatChars (c :: rest)).map (fun p => (JVal.int (p.1 : Int), p.2))

/-- Parse a non-empty comma-separated list of `"key":value` members. -/
def parsePairs : Nat → List Char → Option (List (List Char × JVal) × List Char)
  | 0, _ => none
  | fuel + 1, l =>
    match l with
    | [] => none
    | c :: rest =>
      if c = '"' then
        match parseJStringBody rest with
        | none => none
        | some (k, r1) =>
          match r1 with
          | ':' :: r2 =>
            match parseJVal r2 with
            | none => none
            | some (v, r3) =>
              match r3 with
              | ',' :: r4 =>
                match parsePairs fuel r4 with
                | none => none
                | some (ps, r5) => some ((k, v) :: ps, r5)
              | _ => some ([(k, v)], r3)
          | _ => none
      else none

/-- Parse a JSON object of the supported subset. -/
def parseObject (l : List Char) : Option (List (List Char × JVal) × List Char) :=
  match l with
  | '\x7b' :: rest =>
    match rest with
    | '\x7d' :: r2 => some ([], r2)
    | _ =>
      match parsePairs rest.length rest with
      | none => none
      | some (fs, r) =>
        match r with
        | '\x7d' :: r2 => some (fs, r2)
        | _ => none
  | _ => none

/-- First string value stored under `key`. -/
def getStrField : List (List Char × JVal) → List Char → Option String
  | [], _ => none
  | (k, JVal.str s) :: rest, key => if k = key then some s else getStrField rest key
  | (k, JVal.int _) :: rest, key => if k = key then none else getStrField rest key

/-- First integer value stored under `key`. -/
def getIntField : List (List Char × JVal) → List Char → Option Int
  | [], _ => none
  | (k, JVal.int i) :: rest, key => if k = key then some i else getIntField rest key
  | (k, JVal.str _) :: rest, key => if k = key then none else getIntField rest key

/-- The three claims the plugin reads, extracted from a parsed object. -/
def payloadOfFields (fs : List (List Char × JVal)) : Payload :=
  ⟨getStrField fs ['e', 'r', 'r', 'o', 'r'],
   getIntField fs ['e', 'x', 'p'],
   getIntField fs ['n', 'b', 'f']⟩

/-! ### UTF-8 (model of the byte-level view of the segment text) -/

/-- UTF-8 bytes of one scalar value. -/
def utf8EncodeChar (ch : Char) : List Nat :=
  let c := ch.toNat
  if c < 128 then [c]
  else if c < 2048 then [192 + c / 64, 128 + c % 64]
  else if c < 65536 then [224 + c / 4096, 128 + (c / 64) % 64, 128 + c % 64]
  else [240 + c / 262144, 128 + (c / 4096) % 64, 128 + (c / 64) % 64, 128 + c % 64]

/-- UTF-8 bytes of a character sequence. -/
def utf8Encode : List Char → List Nat
  | [] => []
  | c :: r => utf8EncodeChar c ++ utf8Encode r

/-- Is `b` a UTF-8 continuation byte? -/
def isCont (b : Nat) : Bool := 128 ≤ b && b < 192

/-- One continuation byte after high bits `hi`. -/
def utf8Cont1 (hi : Nat) : List Nat → Option (Char × List Nat)
  | b2 :: tail => if isCont b2 then some (Char.ofNat (hi * 64 + (b2 - 128)), tail) else none
  | [] => none

/-- Two continuation bytes after high bits `hi`. -/
def utf8Cont2 (hi : Nat) : List Nat → Option (Char × List Nat)
  | b2 :: b3 :: tail =>
    if isCont b2 && isCont b3 then
      some (Char.ofNat ((hi * 64 + (b2 - 128)) * 64 + (b3 - 128)), tail)
    else none
  | _ => none

/-- Three continuation bytes after high bits `hi`. -/
def utf8Cont3 (hi : Nat) : List Nat → Option (Char × List Nat)
  | b2 :: b3 :: b4 :: tail =>
    if isCont b2 && isCont b3 && isCont b4 then
      some (Char.ofNat (((hi * 64 + (b2 - 128)) * 64 + (b3 - 128)) * 64 + (b4 - 128)), tail)
    else none
  | _ => none

/-- Decode one UTF-8 scalar from the front of the byte sequence. -/
def utf8DecodeStep : List Nat → Option (Char × List Nat)
  | [] => none
  | b1 :: tail =>
    if b1 < 128 then some (Char.ofNat b1, tail)
    else if b1 < 192 then none
    else if b1 < 224 then utf8Cont1 (b1 - 192) tail
    else if b1 < 240 then utf8Cont2 (b1 - 224) tail
    else utf8Cont3 (b1 - 240) tail

/-- Decode scalars one by one; the fuel bounds the number of scalars and is
always instantiated with the byte count. -/
def utf8DecodeAux : Nat → List Nat → Option (List Char)
  | _, [] => some []
  | 0, _ :: _ => none
  | fuel + 1, b :: bs =>
    match utf8DecodeStep (b :: bs) with
    | none => none
    | some (c, rest) => (utf8DecodeAux fuel rest).map (c :: ·)

/-- UTF-8 decoding of a byte sequence. -/
def utf8Decode (l : List Nat) : Option (List Char) := utf8DecodeAux l.length l

/-! ### Base64 (model of `CryptoJS.enc.Base64.stringify` plus the repo's
`base64url` post-processing, and of the decoder inside `jwt-decode`) -/

/-- Character of a six-bit group in the standard base64 alphabet. -/
def sixtetToChar (s : Nat) : Char :=
  if s < 26 then Char.ofNat (65 + s)
  else if s < 52 then Char.ofNat (97 + (s - 26))
  else if s < 62 then Char.ofNat (48 + (s - 52))
  else if s = 62 then '+'
  else '/'

/-- Six-bit value of a base64 character; accepts both the standard and the
URL-safe alphabet, as `jwt-decode` does. -/
def charToSixtet (c : Char) : Option Nat :=
  if 65 ≤ c.toNat ∧ c.toNat ≤ 90 then some (c.toNat - 65)
  else if 97 ≤ c.toNat ∧ c.toNat ≤ 122 then some (c.toNat - 97 + 26)
  else if 48 ≤ c.toNat ∧ c.toNat ≤ 57 then some (c.toNat - 48 + 52)
  else if c = '+' ∨ c = '-' then some 62
  else if c = '/' ∨ c = '_' then some 63
  else none

/-- Standard base64 rendering of a byte sequence, padding included
(model of `CryptoJS.enc.Base64.stringify`). -/
def base64Stringify : List Nat → List Char
  | [] => []
  | [b1] => [sixtetToChar (b1 / 4), sixtetToChar (b1 % 4 * 16), '=', '=']
  | [b1, b2] =>
    [sixtetToChar (b1 / 4), sixtetToChar (b1 % 4 * 16 + b2 / 16), sixtetToChar (b2 % 16 * 4), '=']
  | b1 :: b2 :: b3 :: rest =>
    sixtetToChar (b1 / 4) :: sixtetToChar (b1 % 4 * 16 + b2 / 16) ::
      sixtetToChar (b2 % 16 * 4 + b3 / 64) :: sixtetToChar (b3 % 64) :: base64Stringify rest

/-- Removal of the maximal trailing run of `=` (the repo's `replace(/=+$/, "")`). -/
def stripTrailingEq (l : List Char) : List Char :=
  (l.reverse.dropWhile (fun c => c = '=')).reverse

/-- Global single-character replacement (the repo's `replace(/x/g, y)`). -/
def replaceChar (a b : Char) (l : List Char) : List Char :=
  l.map (fun c => if c = a then b else c)

/-- Source `src/plugin.js` lines 62-68: base64, padding stripped, `+` and `/` made
URL-safe. -/
def base64url (source : List Nat) : List Char :=
  let encodedSource := base64Stringify source
  let encodedSource := stripTrailingEq encodedSource
  let encodedSource := replaceChar '+' '-' encodedSource
  let encodedSource := replaceChar '/' '_' encodedSource
  encodedSource

/-- Base64 decoding of an unpadded character sequence (model of the
re-pad-and-`atob` step inside `jwt-decode`). -/
def b64DecodeChars : List Char → Option (List Nat)
  | [] => some []
  | [_] => none
  | [c1, c2] =>
    match charToSixtet c1, charToSixtet c2 with
    | some s1, some s2 => some [s1 * 4 + s2 / 16]
    | _, _ => none
  | [c1, c2, c3] =>
    match charToSixtet c1, charToSixtet c2, charToSixtet c3 with
    | some s1, some s2, some s3 => some [s1 * 4 + s2 / 16, s2 % 16 * 16 + s3 / 4]
    | _, _, _ => none
  | c1 :: c2 :: c3 :: c4 :: rest =>
    match charToSixtet c1, charToSixtet c2, charToSixtet c3, charToSixtet c4 with
    | some s1, some s2, some s3, some s4 =>
      (b64DecodeChars rest).map
        (fun bs => (s1 * 4 + s2 / 16) :: (s2 % 16 * 16 + s3 / 4) :: (s3 % 4 * 64 + s4) :: bs)
    | _, _, _, _ => none

/-! ### `jwt-decode` (external library; modelled from the spec's Token Codec:
take the second dot-separated segment, base64url-decode it, JSON-parse it) -/

/-- Characters of the second dot-separated segment up to the next dot. -/
def takeUntilDot : List Char → List Char
  | [] => []
  | c :: r => if c = '.' then [] else c :: takeUntilDot r

/-- Everything after the first dot (`none` when there is no dot, in which case
`jwt-decode` throws). -/
def afterFirstDot : List Char → Option (List Char)
  | [] => none
  | c :: r => if c = '.' then some r else afterFirstDot r

/-- The source's `token.split(".")[1]` (inside `jwt-decode`). -/
def secondSegment (l : List Char) : Option (List Char) :=
  (afterFirstDot l).map takeUntilDot

/-- Modelled from the spec: the Token Codec's `decode` (realized in the source
by the external `jwt-decode` library): second segment, base64url bytes, UTF-8
text, JSON object; any failure is a decode failure (`none`). -/
def jwtDecodeChars (l : List Char) : Option Payload :=
  match secondSegment l with
  | none => none
  | some seg =>
    match b64DecodeChars seg with
    | none => none
    | some bytes =>
      match utf8Decode bytes with
      | none => none
      | some chars =>
        match parseObject chars with
        | none => none
        | some (fields, rest) => if rest = [] then some (payloadOfFields fields) else none

/-- Decode a token string. -/
def jwtDecode (t : String) : Option Payload := jwtDecodeChars t.data

/-! ### The Validity Checker (`src/plugin.js` lines 45-59) -/

/-- The source's `typeof data.exp !== "undefined" && data.exp < now`. -/
def checkExp (e : Option Int) (now : Int) : Bool :=
  match e with
  | some v => decide (v < now)
  | none => false

/-- The source's `typeof data.nbf !== "undefined" && data.nbf > now`. -/
def checkNbf (n : Option Int) (now : Int) : Bool :=
  match n with
  | some v => decide (now < v)
  | none => false

/-- Source `src/plugin.js` lines 45-59: decode the token and test the `exp` and `nbf`
claims against the clock; a decode failure is caught and reported as `false`. -/
def validToken (token : String) (now : Int) : Bool :=
  match jwtDecode token with
  | none => false
  | some data =>
    if checkExp data.exp now then false
    else if checkNbf data.nbf now then false
    else true

/-! ### The Error Token Factory (`src/plugin.js` lines 70-86) -/

/-- The stringified header with alg "HS256" and typ "JWT", in insertion order. -/
def headerChars : List Char :=
  ['\x7b', '"', 'a', 'l', 'g', '"', ':', '"', 'H', 'S', '2', '5', '6', '"', ',',
   '"', 't', 'y', 'p', '"', ':', '"', 'J', 'W', 'T', '"', '\x7d']

/-- The stringified payload with the error and exp claims, in insertion order. -/
def errorPayloadChars (error : String) (exp : Int) : List Char :=
  ['\x7b', '"', 'e', 'r', 'r', 'o', 'r', '"', ':'] ++ jsonStringChars error
    ++ [',', '"', 'e', 'x', 'p', '"', ':'] ++ intToChars exp ++ ['\x7d']

/-- Source `src/plugin.js` lines 70-86: a fake two-segment token carrying the error
message, kept for one minute (`exp = now + 60`); the clock read is the explicit
`now` parameter. -/
def errorToken (error : String) (now : Int) : String :=
  let encodedHeader := base64url (utf8Encode headerChars)
  let exp := now + 60
  let encodedData := base64url (utf8Encode (errorPayloadChars error exp))
  String.mk (encodedHeader ++ '.' :: encodedData)

/-! ### The Cache Orchestrator (`src/plugin.js` lines 89-156) -/

/-- The seven caller-supplied arguments of `run`.  A missing string argument
behaves like the empty string everywhere the code consults it; the client
secret is kept optional because the key join renders an absent value as the
empty string. -/
structure Args where
  Username : String
  Password : String
  Region : String
  ClientId : String
  UserPoolId : String
  TokenType : String
  ClientSecret : Option String
deriving DecidableEq, Repr

/-- Source `src/plugin.js` lines 114-116: `if (!TokenType) TokenType = "access"`. -/
def withDefaultTokenType (a : Args) : Args :=
  if a.TokenType = "" then
    Args.mk a.Username a.Password a.Region a.ClientId a.UserPoolId "access" a.ClientSecret
  else a

/-- Source `src/plugin.js` lines 118-126: the cache key, the seven fields joined with
`::` (`Array.prototype.join` renders an absent client secret as `""`). -/
def cacheKey (a : Args) : String :=
  a.Username ++ "::" ++ a.Password ++ "::" ++ a.Region ++ "::" ++ a.ClientId ++ "::"
    ++ a.UserPoolId ++ "::" ++ a.TokenType ++ "::" ++ a.ClientSecret.getD ""

/-- The external cache collaborator (`context.store`): an association list,
newest entry first. -/
abbrev Store := List (String × String)

/-- The cache collaborator's `context.store.getItem`. -/
def getItem (s : Store) (k : String) : Option String :=
  (s.find? (fun p => p.1 = k)).map (fun p => p.2)

/-- The cache collaborator's `context.store.setItem`. -/
def setItem (s : Store) (k : String) (v : String) : Store := (k, v) :: s

/-- One call to an external collaborator, in call order. -/
inductive Event where
  | get (key : String)
  | auth (a : Args)
  | set (key : String) (value : String)
deriving DecidableEq, Repr

/-- The Authentication Client collaborator (`cognitoAuth`, lines 9-42, which
wraps the external `amazon-cognito-identity-js` handshake): it receives the
full credential set and either returns a token string or fails with a message. -/
abbrev AuthClient := Args → Except String String

/-- Source `src/plugin.js` lines 89-156, the `run` function.  Thrown errors are
`Except.error`; the returned triple is (result, final store, trace of
collaborator calls).  The clock reads inside `validToken` and `errorToken`
are the explicit `now` parameter. -/
def run (auth : AuthClient) (store : Store) (a : Args) (now : Int) :
    Except String String × Store × List Event :=
  if a.Username = "" then (Except.error "Username attribute is required", store, [])
  else if a.Password = "" then (Except.error "Password attribute is required", store, [])
  else if a.Region = "" then (Except.error "Region attribute is required", store, [])
  else if a.ClientId = "" then (Except.error "ClientId attribute is required", store, [])
  else if a.UserPoolId = "" then (Except.error "UserPoolId attribute is required", store, [])
  else
    let a2 := withDefaultTokenType a
    let key := cacheKey a2
    let token := (getItem store key).getD ""
    if token ≠ "" ∧ validToken token now = true then
      let e := ((jwtDecode token).bind Payload.error).getD ""
      if e ≠ "" then (Except.ok e, store, [Event.get key])
      else (Except.ok token, store, [Event.get key])
    else
      match auth a2 with
      | Except.ok tok =>
        (Except.ok tok, setItem store key tok, [Event.get key, Event.auth a2, Event.set key tok])
      | Except.error msg =>
        (Except.ok msg, setItem store key (errorToken msg now),
         [Event.get key, Event.auth a2, Event.set key (errorToken msg now)])

/-- The field name the validation of `run` complains about first. -/
def firstMissing (a : Args) : String :=
  if a.Username = "" then "Username"
  else if a.Password = "" then "Password"
  else if a.Region = "" then "Region"
  else if a.ClientId = "" then "ClientId"
  else "UserPoolId"

/-- Predicate: `f` names one of the five mandatory fields and that field is empty in `a`. -/
def namesEmptyField (a : Args) (f : String) : Prop :=
  (f = "Username" ∧ a.Username = "") ∨ (f = "Password" ∧ a.Password = "") ∨
    (f = "Region" ∧ a.Region = "") ∨ (f = "ClientId" ∧ a.ClientId = "") ∨
    (f = "UserPoolId" ∧ a.UserPoolId = "")

/-! ### Separator-safety of key fields (for the key-injectivity analysis) -/

/-- Does the sequence start with `:`? -/
def headIsColon : List Char → Bool
  | [] => false
  | c :: _ => decide (c = ':')

/-- Does the sequence contain two consecutive `:`? -/
def hasDoubleColon : List Char → Bool
  | [] => false
  | c :: rest => ((if c = ':' then headIsColon rest else false) || hasDoubleColon rest)

/-- Does the sequence end with `:`? -/
def lastIsColon : List Char → Bool
  | [] => false
  | c :: rest =>
    match rest with
    | [] => decide (c = ':')
    | _ :: _ => lastIsColon rest

/-- A key field that cannot interfere with the `::` separator: it contains no
`::` and does not end with `:`. -/
def fieldSepSafe (s : String) : Bool :=
  !hasDoubleColon s.data && !lastIsColon s.data

/-- All seven joined fields of `a` are separator-safe. -/
def argsSepSafe (a : Args) : Bool :=
  fieldSepSafe a.Username && fieldSepSafe a.Password && fieldSepSafe a.Region &&
    fieldSepSafe a.ClientId && fieldSepSafe a.UserPoolId && fieldSepSafe a.TokenType &&
    fieldSepSafe (a.ClientSecret.getD "")

/-- All seven joined fields of `a` are free of the `::` separator substring
(the restriction the injectivity claim is stated under). -/
def argsSepFree (a : Args) : Bool :=
  !hasDoubleColon a.Username.data && !hasDoubleColon a.Password.data &&
    !hasDoubleColon a.Region.data && !hasDoubleColon a.ClientId.data &&
    !hasDoubleColon a.UserPoolId.data && !hasDoubleColon a.TokenType.data &&
    !hasDoubleColon (a.ClientSecret.getD "").data

/-! ### Auxiliary forms used only inside proofs -/

/-- The composed effect of the two URL-safe replacements on one character. -/
def urlRep (c : Char) : Char :=
  if c = '+' then '-' else if c = '/' then '_' else c

/-- Base64 without padding characters (what `stripTrailingEq` leaves of
`base64Stringify`). -/
def base64NoPad : List Nat → List Char
  | [] => []
  | [b1] => [sixtetToChar (b1 / 4), sixtetToChar (b1 % 4 * 16)]
  | [b1, b2] =>
    [sixtetToChar (b1 / 4), sixtetToChar (b1 % 4 * 16 + b2 / 16), sixtetToChar (b2 % 16 * 4)]
  | b1 :: b2 :: b3 :: rest =>
    sixtetToChar (b1 / 4) :: sixtetToChar (b1 % 4 * 16 + b2 / 16) ::
      sixtetToChar (b2 % 16 * 4 + b3 / 64) :: sixtetToChar (b3 % 64) :: base64NoPad rest

/-- The next character, if any, is not a decimal digit. -/
def headNotDigit : List Char → Bool
  | [] => true
  | c :: _ => !isDigitChar c

/-! ### Concrete fixtures for witnesses and counterexamples -/

/-- A well-formed credential set. -/
def wArgs : Args := Args.mk "u" "p" "r" "c" "pool" "access" none

/-- A token whose payload is the empty JSON object (no claims at all). -/
def tokenNoClaims : String :=
  String.mk ('A' :: '.' :: base64url (utf8Encode ['\x7b', '\x7d']))

/-- A token whose payload is `\x7b"nbf":7\x7d`. -/
def tokenNbf : String :=
  String.mk ('A' :: '.' :: base64url (utf8Encode ['\x7b', '"', 'n', 'b', 'f', '"', ':', '7', '\x7d']))

/-! ## Base64 round trip -/

theorem sixtet_facts : ∀ s, s < 64 → charToSixtet (urlRep (sixtetToChar s)) = some s ∧
    sixtetToChar s ≠ '=' ∧ urlRep (sixtetToChar s) ≠ '.' := by decide

theorem dropWhile_append_left {p : Char → Bool} {u : List Char} (v : List Char)
    (h : u.dropWhile p ≠ []) : (u ++ v).dropWhile p = u.dropWhile p ++ v := by
  induction u with
  | nil => simp at h
  | cons a u ih =>
    by_cases hpa : p a = true
    · rw [List.dropWhile_cons_of_pos hpa] at h
      rw [show (a :: u) ++ v = a :: (u ++ v) from rfl, List.dropWhile_cons_of_pos hpa,
        List.dropWhile_cons_of_pos hpa]
      exact ih h
    · rw [List.dropWhile_cons_of_neg hpa,
        show (a :: u) ++ v = a :: (u ++ v) from rfl, List.dropWhile_cons_of_neg hpa]

theorem strip_append_eq (l : List Char) : stripTrailingEq (l ++ ['=']) = stripTrailingEq l := by
  simp [stripTrailingEq, List.dropWhile_cons]

theorem strip_append_ne (l : List Char) (c : Char) (hc : c ≠ '=') :
    stripTrailingEq (l ++ [c]) = l ++ [c] := by
  simp [stripTrailingEq, List.dropWhile_cons, hc]

theorem strip_append_left (l m : List Char) (h : stripTrailingEq m ≠ []) :
    stripTrailingEq (l ++ m) = l ++ stripTrailingEq m := by
  have hd : m.reverse.dropWhile (fun c => c = '=') ≠ [] := by
    intro he
    exact h (by simp [stripTrailingEq, he])
  simp only [stripTrailingEq, List.reverse_append]
  rw [dropWhile_append_left _ hd, List.reverse_append, List.reverse_reverse]

theorem base64NoPad_ne_nil (b : Nat) (bs : List Nat) : base64NoPad (b :: bs) ≠ [] := by
  match bs with
  | [] => simp [base64NoPad]
  | [b2] => simp [base64NoPad]
  | b2 :: b3 :: rest => simp [base64NoPad]

theorem strip_base64Stringify (bs : List Nat) :
    stripTrailingEq (base64Stringify bs) = base64NoPad bs := by
  induction bs using base64Stringify.induct with
  | case1 => rfl
  | case2 b1 =>
    have h2 : sixtetToChar (b1 % 4 * 16) ≠ '=' := (sixtet_facts _ (by omega)).2.1
    show stripTrailingEq ([sixtetToChar (b1 / 4), sixtetToChar (b1 % 4 * 16), '='] ++ ['=']) = _
    rw [strip_append_eq]
    show stripTrailingEq ([sixtetToChar (b1 / 4), sixtetToChar (b1 % 4 * 16)] ++ ['=']) = _
    rw [strip_append_eq]
    show stripTrailingEq ([sixtetToChar (b1 / 4)] ++ [sixtetToChar (b1 % 4 * 16)]) = _
    rw [strip_append_ne _ _ h2]
    rfl
  | case3 b1 b2 =>
    have h3 : sixtetToChar (b2 % 16 * 4) ≠ '=' := (sixtet_facts _ (by omega)).2.1
    show stripTrailingEq
      ([sixtetToChar (b1 / 4), sixtetToChar (b1 % 4 * 16 + b2 / 16), sixtetToChar (b2 % 16 * 4)]
        ++ ['=']) = _
    rw [strip_append_eq]
    show stripTrailingEq
      ([sixtetToChar (b1 / 4), sixtetToChar (b1 % 4 * 16 + b2 / 16)] ++ [sixtetToChar (b2 % 16 * 4)])
        = _
    rw [strip_append_ne _ _ h3]
    rfl
  | case4 b1 b2 b3 rest ih =>
    show stripTrailingEq
      ([sixtetToChar (b1 / 4), sixtetToChar (b1 % 4 * 16 + b2 / 16),
        sixtetToChar (b2 % 16 * 4 + b3 / 64), sixtetToChar (b3 % 64)] ++ base64Stringify rest) = _
    match rest with
    | [] =>
      have h4 : sixtetToChar (b3 % 64) ≠ '=' := (sixtet_facts _ (by omega)).2.1
      show stripTrailingEq
        ([sixtetToChar (b1 / 4), sixtetToChar (b1 % 4 * 16 + b2 / 16),
          sixtetToChar (b2 % 16 * 4 + b3 / 64)] ++ [sixtetToChar (b3 % 64)]) = _
      rw [strip_append_ne _ _ h4]
      rfl
    | r1 :: rtl =>
      rw [strip_append_left _ _ (by rw [ih]; exact base64NoPad_ne_nil r1 rtl), ih]
      rfl

theorem replace_replace (l : List Char) :
    replaceChar '/' '_' (replaceChar '+' '-' l) = l.map urlRep := by
  simp only [replaceChar, List.map_map]
  induction l with
  | nil => rfl
  | cons c cs ih =>
    simp only [List.map_cons, List.cons.injEq] at ih ⊢
    refine ⟨?_, ih⟩
    by_cases h1 : c = '+'
    · simp [h1, urlRep, Function.comp]
    · by_cases h2 : c = '/' <;> simp [h1, h2, urlRep, Function.comp]

theorem base64url_eq (bs : List Nat) : base64url bs = (base64NoPad bs).map urlRep := by
  show replaceChar '/' '_' (replaceChar '+' '-' (stripTrailingEq (base64Stringify bs)))
    = (base64NoPad bs).map urlRep
  rw [strip_base64Stringify, replace_replace]

theorem b64_roundtrip (bs : List Nat) (h : ∀ b ∈ bs, b < 256) :
    b64DecodeChars (base64url bs) = some bs := by
  rw [base64url_eq]
  induction bs using base64NoPad.induct with
  | case1 => rfl
  | case2 b1 =>
    have hb1 : b1 < 256 := h b1 (by simp)
    rw [show base64NoPad [b1] = [sixtetToChar (b1 / 4), sixtetToChar (b1 % 4 * 16)] from rfl]
    rw [List.map_cons, List.map_cons, List.map_nil]
    rw [show b64DecodeChars [urlRep (sixtetToChar (b1 / 4)), urlRep (sixtetToChar (b1 % 4 * 16))]
      = match charToSixtet (urlRep (sixtetToChar (b1 / 4))),
          charToSixtet (urlRep (sixtetToChar (b1 % 4 * 16))) with
        | some s1, some s2 => some [s1 * 4 + s2 / 16]
        | _, _ => none from rfl]
    rw [(sixtet_facts (b1 / 4) (by omega)).1, (sixtet_facts (b1 % 4 * 16) (by omega)).1]
    simp
    omega
  | case3 b1 b2 =>
    have hb1 : b1 < 256 := h b1 (by simp)
    have hb2 : b2 < 256 := h b2 (by simp)
    rw [show base64NoPad [b1, b2] = [sixtetToChar (b1 / 4), sixtetToChar (b1 % 4 * 16 + b2 / 16),
      sixtetToChar (b2 % 16 * 4)] from rfl]
    rw [List.map_cons, List.map_cons, List.map_cons, List.map_nil]
    rw [show b64DecodeChars [urlRep (sixtetToChar (b1 / 4)),
        urlRep (sixtetToChar (b1 % 4 * 16 + b2 / 16)), urlRep (sixtetToChar (b2 % 16 * 4))]
      = match charToSixtet (urlRep (sixtetToChar (b1 / 4))),
          charToSixtet (urlRep (sixtetToChar (b1 % 4 * 16 + b2 / 16))),
          charToSixtet (urlRep (sixtetToChar (b2 % 16 * 4))) with
        | some s1, some s2, some s3 => some [s1 * 4 + s2 / 16, s2 % 16 * 16 + s3 / 4]
        | _, _, _ => none from rfl]
    rw [(sixtet_facts (b1 / 4) (by omega)).1, (sixtet_facts (b1 % 4 * 16 + b2 / 16) (by omega)).1,
      (sixtet_facts (b2 % 16 * 4) (by omega)).1]
    simp
    omega
  | case4 b1 b2 b3 rest ih =>
    have hb1 : b1 < 256 := h b1 (by simp)
    have hb2 : b2 < 256 := h b2 (by simp)
    have hb3 : b3 < 256 := h b3 (by simp)
    have hrest : ∀ b ∈ rest, b < 256 := fun b hb => h b (by simp [hb])
    rw [show base64NoPad (b1 :: b2 :: b3 :: rest)
      = sixtetToChar (b1 / 4) :: sixtetToChar (b1 % 4 * 16 + b2 / 16) ::
        sixtetToChar (b2 % 16 * 4 + b3 / 64) :: sixtetToChar (b3 % 64) :: base64NoPad rest
      from rfl]
    rw [List.map_cons, List.map_cons, List.map_cons, List.map_cons]
    rw [show ∀ c1 c2 c3 c4 tl, b64DecodeChars (c1 :: c2 :: c3 :: c4 :: tl)
      = (match charToSixtet c1, charToSixtet c2, charToSixtet c3, charToSixtet c4 with
        | some s1, some s2, some s3, some s4 =>
          (b64DecodeChars tl).map
            (fun bs => (s1 * 4 + s2 / 16) :: (s2 % 16 * 16 + s3 / 4) :: (s3 % 4 * 64 + s4) :: bs)
        | _, _, _, _ => none) from fun c1 c2 c3 c4 tl => rfl]
    rw [(sixtet_facts (b1 / 4) (by omega)).1, (sixtet_facts (b1 % 4 * 16 + b2 / 16) (by omega)).1,
      (sixtet_facts (b2 % 16 * 4 + b3 / 64) (by omega)).1, (sixtet_facts (b3 % 64) (by omega)).1]
    rw [ih hrest]
    simp
    omega

theorem base64url_no_dot (bs : List Nat) (h : ∀ b ∈ bs, b < 256) :
    ∀ c ∈ base64url bs, c ≠ '.' := by
  rw [base64url_eq]
  induction bs using base64NoPad.induct with
  | case1 => simp [base64NoPad]
  | case2 b1 =>
    have hb1 : b1 < 256 := h b1 (by simp)
    simp only [base64NoPad, List.map_cons, List.map_nil, List.mem_cons, List.not_mem_nil, or_false]
    rintro c (rfl | rfl)
    · exact (sixtet_facts (b1 / 4) (by omega)).2.2
    · exact (sixtet_facts (b1 % 4 * 16) (by omega)).2.2
  | case3 b1 b2 =>
    have hb1 : b1 < 256 := h b1 (by simp)
    have hb2 : b2 < 256 := h b2 (by simp)
    simp only [base64NoPad, List.map_cons, List.map_nil, List.mem_cons, List.not_mem_nil, or_false]
    rintro c (rfl | rfl | rfl)
    · exact (sixtet_facts (b1 / 4) (by omega)).2.2
    · exact (sixtet_facts (b1 % 4 * 16 + b2 / 16) (by omega)).2.2
    · exact (sixtet_facts (b2 % 16 * 4) (by omega)).2.2
  | case4 b1 b2 b3 rest ih =>
    have hb1 : b1 < 256 := h b1 (by simp)
    have hb2 : b2 < 256 := h b2 (by simp)
    have hb3 : b3 < 256 := h b3 (by simp)
    have hrest : ∀ b ∈ rest, b < 256 := fun b hb => h b (by simp [hb])
    simp only [base64NoPad, List.map_cons, List.mem_cons]
    rintro c (rfl | rfl | rfl | rfl | hc)
    · exact (sixtet_facts (b1 / 4) (by omega)).2.2
    · exact (sixtet_facts (b1 % 4 * 16 + b2 / 16) (by omega)).2.2
    · exact (sixtet_facts (b2 % 16 * 4 + b3 / 64) (by omega)).2.2
    · exact (sixtet_facts (b3 % 64) (by omega)).2.2
    · exact ih hrest c hc

theorem base64url_length (bs : List Nat) : bs.length ≤ (base64url bs).length := by
  rw [base64url_eq, List.length_map]
  induction bs using base64NoPad.induct with
  | case1 => simp [base64NoPad]
  | case2 b1 => simp [base64NoPad]
  | case3 b1 b2 => simp [base64NoPad]
  | case4 b1 b2 b3 rest ih => simp [base64NoPad]; omega

/-! ## UTF-8 round trip -/

theorem char_toNat_lt (c : Char) : c.toNat < 1114112 := by
  have h := c.valid
  simp [UInt32.isValidChar, Nat.isValidChar] at h
  simp [Char.toNat]
  omega

theorem utf8EncodeChar_lt (c : Char) : ∀ b ∈ utf8EncodeChar c, b < 256 := by
  intro b hb
  have hv : c.toNat < 1114112 := char_toNat_lt c
  by_cases h1 : c.toNat < 128
  · simp [utf8EncodeChar, h1] at hb
    omega
  · by_cases h2 : c.toNat < 2048
    · simp [utf8EncodeChar, h1, h2] at hb
      rcases hb with rfl | rfl <;> omega
    · by_cases h3 : c.toNat < 65536
      · simp [utf8EncodeChar, h1, h2, h3] at hb
        rcases hb with rfl | rfl | rfl <;> omega
      · simp [utf8EncodeChar, h1, h2, h3] at hb
        rcases hb with rfl | rfl | rfl | rfl <;> omega

theorem utf8Encode_lt (l : List Char) : ∀ b ∈ utf8Encode l, b < 256 := by
  induction l with
  | nil => simp [utf8Encode]
  | cons c cs ih =>
    intro b hb
    rw [show utf8Encode (c :: cs) = utf8EncodeChar c ++ utf8Encode cs from rfl] at hb
    rcases List.mem_append.mp hb with h | h
    · exact utf8EncodeChar_lt c b h
    · exact ih b h

theorem utf8DecodeStep_encodeChar (c : Char) (r : List Nat) :
    utf8DecodeStep (utf8EncodeChar c ++ r) = some (c, r) := by
  have hv : c.toNat < 1114112 := char_toNat_lt c
  by_cases h1 : c.toNat < 128
  · rw [show utf8EncodeChar c = [c.toNat] from by simp [utf8EncodeChar, h1]]
    rw [show ([c.toNat] ++ r) = c.toNat :: r from rfl]
    rw [show utf8DecodeStep (c.toNat :: r) = if c.toNat < 128 then some (Char.ofNat c.toNat, r)
      else if c.toNat < 192 then none else if c.toNat < 224 then utf8Cont1 (c.toNat - 192) r
      else if c.toNat < 240 then utf8Cont2 (c.toNat - 224) r
      else utf8Cont3 (c.toNat - 240) r from rfl]
    rw [if_pos h1, Char.ofNat_toNat]
  · by_cases h2 : c.toNat < 2048
    · rw [show utf8EncodeChar c = [192 + c.toNat / 64, 128 + c.toNat % 64] from by
        simp [utf8EncodeChar, h1, h2]]
      rw [show ([192 + c.toNat / 64, 128 + c.toNat % 64] ++ r)
        = (192 + c.toNat / 64) :: (128 + c.toNat % 64) :: r from rfl]
      rw [show ∀ b1 tl, utf8DecodeStep (b1 :: tl) = if b1 < 128 then some (Char.ofNat b1, tl)
        else if b1 < 192 then none else if b1 < 224 then utf8Cont1 (b1 - 192) tl
        else if b1 < 240 then utf8Cont2 (b1 - 224) tl
        else utf8Cont3 (b1 - 240) tl from fun b1 tl => rfl]
      rw [if_neg (by omega), if_neg (by omega), if_pos (by omega : 192 + c.toNat / 64 < 224)]
      rw [show ∀ hi b2 tl, utf8Cont1 hi (b2 :: tl)
        = if isCont b2 then some (Char.ofNat (hi * 64 + (b2 - 128)), tl) else none
        from fun hi b2 tl => rfl]
      rw [if_pos (by simp [isCont]; omega : isCont (128 + c.toNat % 64) = true)]
      rw [show (192 + c.toNat / 64 - 192) * 64 + (128 + c.toNat % 64 - 128) = c.toNat from by
        omega, Char.ofNat_toNat]
    · by_cases h3 : c.toNat < 65536
      · rw [show utf8EncodeChar c
          = [224 + c.toNat / 4096, 128 + c.toNat / 64 % 64, 128 + c.toNat % 64] from by
          simp [utf8EncodeChar, h1, h2, h3]]
        rw [show ([224 + c.toNat / 4096, 128 + c.toNat / 64 % 64, 128 + c.toNat % 64] ++ r)
          = (224 + c.toNat / 4096) :: (128 + c.toNat / 64 % 64) :: (128 + c.toNat % 64) :: r
          from rfl]
        rw [show ∀ b1 tl, utf8DecodeStep (b1 :: tl) = if b1 < 128 then some (Char.ofNat b1, tl)
          else if b1 < 192 then none else if b1 < 224 then utf8Cont1 (b1 - 192) tl
          else if b1 < 240 then utf8Cont2 (b1 - 224) tl
          else utf8Cont3 (b1 - 240) tl from fun b1 tl => rfl]
        rw [if_neg (by omega), if_neg (by omega), if_neg (by omega),
          if_pos (by omega : 224 + c.toNat / 4096 < 240)]
        rw [show ∀ hi b2 b3 tl, utf8Cont2 hi (b2 :: b3 :: tl)
          = if isCont b2 && isCont b3 then
              some (Char.ofNat ((hi * 64 + (b2 - 128)) * 64 + (b3 - 128)), tl)
            else none
          from fun hi b2 b3 tl => rfl]
        rw [if_pos (by (simp [isCont]; omega) :
          (isCont (128 + c.toNat / 64 % 64) && isCont (128 + c.toNat % 64)) = true)]
        rw [show ((224 + c.toNat / 4096 - 224) * 64 + (128 + c.toNat / 64 % 64 - 128)) * 64
          + (128 + c.toNat % 64 - 128) = c.toNat from by omega, Char.ofNat_toNat]
      · rw [show utf8EncodeChar c = [240 + c.toNat / 262144, 128 + c.toNat / 4096 % 64,
          128 + c.toNat / 64 % 64, 128 + c.toNat % 64] from by simp [utf8EncodeChar, h1, h2, h3]]
        rw [show ([240 + c.toNat / 262144, 128 + c.toNat / 4096 % 64, 128 + c.toNat / 64 % 64,
          128 + c.toNat % 64] ++ r) = (240 + c.toNat / 262144) :: (128 + c.toNat / 4096 % 64) ::
          (128 + c.toNat / 64 % 64) :: (128 + c.toNat % 64) :: r from rfl]
        rw [show ∀ b1 tl, utf8DecodeStep (b1 :: tl) = if b1 < 128 then some (Char.ofNat b1, tl)
          else if b1 < 192 then none else if b1 < 224 then utf8Cont1 (b1 - 192) tl
          else if b1 < 240 then utf8Cont2 (b1 - 224) tl
          else utf8Cont3 (b1 - 240) tl from fun b1 tl => rfl]
        rw [if_neg (by omega), if_neg (by omega), if_neg (by omega), if_neg (by omega)]
        rw [show ∀ hi b2 b3 b4 tl, utf8Cont3 hi (b2 :: b3 :: b4 :: tl)
          = if isCont b2 && isCont b3 && isCont b4 then
              some (Char.ofNat (((hi * 64 + (b2 - 128)) * 64 + (b3 - 128)) * 64 + (b4 - 128)), tl)
            else none
          from fun hi b2 b3 b4 tl => rfl]
        rw [if_pos (by (simp [isCont]; omega) :
          (isCont (128 + c.toNat / 4096 % 64) && isCont (128 + c.toNat / 64 % 64)
            && isCont (128 + c.toNat % 64)) = true)]
        rw [show (((240 + c.toNat / 262144 - 240) * 64 + (128 + c.toNat / 4096 % 64 - 128)) * 64
          + (128 + c.toNat / 64 % 64 - 128)) * 64 + (128 + c.toNat % 64 - 128) = c.toNat from by
          omega, Char.ofNat_toNat]

theorem utf8EncodeChar_ne_nil (c : Char) : utf8EncodeChar c ≠ [] := by
  by_cases h1 : c.toNat < 128
  · simp [utf8EncodeChar, h1]
  · by_cases h2 : c.toNat < 2048
    · simp [utf8EncodeChar, h1, h2]
    · by_cases h3 : c.toNat < 65536 <;> simp [utf8EncodeChar, h1, h2, h3]

theorem utf8DecodeAux_encode (l : List Char) : ∀ fuel, l.length ≤ fuel →
    utf8DecodeAux fuel (utf8Encode l) = some l := by
  induction l with
  | nil =>
    intro fuel _
    match fuel with
    | 0 => rfl
    | f + 1 => rfl
  | cons c cs ih =>
    intro fuel hf
    match fuel with
    | 0 => simp at hf
    | f + 1 =>
      rw [show utf8Encode (c :: cs) = utf8EncodeChar c ++ utf8Encode cs from rfl]
      match hE : utf8EncodeChar c with
      | [] => exact absurd hE (utf8EncodeChar_ne_nil c)
      | b :: tl =>
        rw [show ((b :: tl) ++ utf8Encode cs) = b :: (tl ++ utf8Encode cs) from rfl]
        rw [show utf8DecodeAux (f + 1) (b :: (tl ++ utf8Encode cs))
          = match utf8DecodeStep (b :: (tl ++ utf8Encode cs)) with
            | none => none
            | some (c2, rest) => (utf8DecodeAux f rest).map (c2 :: ·) from rfl]
        rw [show (b :: (tl ++ utf8Encode cs)) = utf8EncodeChar c ++ utf8Encode cs from by
          rw [hE]; rfl]
        rw [utf8DecodeStep_encodeChar]
        rw [show (match some (c, utf8Encode cs) with
          | none => none
          | some (c2, rest) => (utf8DecodeAux f rest).map (c2 :: ·))
          = (utf8DecodeAux f (utf8Encode cs)).map (c :: ·) from rfl]
        rw [ih f (by simp at hf; omega)]
        rfl

theorem utf8_roundtrip (l : List Char) : utf8Decode (utf8Encode l) = some l := by
  have hlen : l.length ≤ (utf8Encode l).length := by
    induction l with
    | nil => simp [utf8Encode]
    | cons c cs ih =>
      rw [show utf8Encode (c :: cs) = utf8EncodeChar c ++ utf8Encode cs from rfl]
      have h : 1 ≤ (utf8EncodeChar c).length := by
        match hE : utf8EncodeChar c with
        | [] => exact absurd hE (utf8EncodeChar_ne_nil c)
        | b :: tl => simp
      simp only [List.length_append, List.length_cons]
      omega
  exact utf8DecodeAux_encode l (utf8Encode l).length hlen

/-! ## JSON subset: serialization round trips -/

theorem hexVal_hexDigitChar : ∀ d, d < 16 → hexVal (hexDigitChar d) = some d := by decide

theorem digitChar_facts : ∀ d, d < 10 →
    isDigitChar (digitChar d) = true ∧ (digitChar d).toNat = 48 + d := by decide

theorem natToCharsAux_digits : ∀ fuel n, ∀ c ∈ natToCharsAux fuel n, isDigitChar c = true := by
  intro fuel
  induction fuel with
  | zero => intro n c hc; simp [natToCharsAux] at hc
  | succ f ih =>
    intro n c hc
    rw [show natToCharsAux (f + 1) n
      = if n = 0 then [] else natToCharsAux f (n / 10) ++ [digitChar (n % 10)] from rfl] at hc
    by_cases hn : n = 0
    · simp [hn] at hc
    · rw [if_neg hn] at hc
      rcases List.mem_append.mp hc with h | h
      · exact ih (n / 10) c h
      · rw [List.mem_singleton.mp h]
        exact (digitChar_facts (n % 10) (by omega)).1

theorem natToChars_digits (n : Nat) : ∀ c ∈ natToChars n, isDigitChar c = true := by
  intro c hc
  rw [show natToChars n = if n = 0 then ['0'] else natToCharsAux n n from rfl] at hc
  by_cases hn : n = 0
  · simp [hn] at hc
    rw [hc]
    decide
  · rw [if_neg hn] at hc
    exact natToCharsAux_digits n n c hc

theorem natToChars_ne_nil (n : Nat) : natToChars n ≠ [] := by
  rw [show natToChars n = if n = 0 then ['0'] else natToCharsAux n n from rfl]
  by_cases hn : n = 0
  · simp [hn]
  · rw [if_neg hn]
    match n, hn with
    | m + 1, _ =>
      rw [show natToCharsAux (m + 1) (m + 1)
        = if m + 1 = 0 then [] else natToCharsAux m ((m + 1) / 10) ++ [digitChar ((m + 1) % 10)]
        from rfl, if_neg (by omega)]
      simp

theorem digitsVal_append (xs ys : List Char) (acc : Nat) :
    digitsVal (xs ++ ys) acc = digitsVal ys (digitsVal xs acc) := by
  induction xs generalizing acc with
  | nil => rfl
  | cons c tl ih =>
    rw [show (c :: tl) ++ ys = c :: (tl ++ ys) from rfl]
    rw [show digitsVal (c :: (tl ++ ys)) acc = digitsVal (tl ++ ys) (acc * 10 + (c.toNat - 48))
      from rfl]
    rw [show digitsVal (c :: tl) acc = digitsVal tl (acc * 10 + (c.toNat - 48)) from rfl]
    exact ih (acc * 10 + (c.toNat - 48))

theorem digitsVal_natToCharsAux : ∀ fuel n acc, n ≤ fuel →
    digitsVal (natToCharsAux fuel n) acc = acc * 10 ^ (natToCharsAux fuel n).length + n := by
  intro fuel
  induction fuel with
  | zero =>
    intro n acc hn
    rw [show natToCharsAux 0 n = [] from rfl]
    rw [show digitsVal [] acc = acc from rfl]
    have hn0 : n = 0 := by omega
    subst hn0
    simp
  | succ f ih =>
    intro n acc hn
    rw [show natToCharsAux (f + 1) n
      = if n = 0 then [] else natToCharsAux f (n / 10) ++ [digitChar (n % 10)] from rfl]
    by_cases h0 : n = 0
    · subst h0
      rw [if_pos rfl]
      rw [show digitsVal [] acc = acc from rfl]
      simp
    · rw [if_neg h0, digitsVal_append]
      rw [ih (n / 10) acc (by omega)]
      rw [show digitsVal [digitChar (n % 10)] (acc * 10 ^ (natToCharsAux f (n / 10)).length + n / 10)
        = (acc * 10 ^ (natToCharsAux f (n / 10)).length + n / 10) * 10 + ((digitChar (n % 10)).toNat - 48)
        from rfl]
      rw [(digitChar_facts (n % 10) (by omega)).2]
      rw [List.length_append, List.length_cons, List.length_nil]
      rw [pow_succ]
      set P := 10 ^ (natToCharsAux f (n / 10)).length with hP
      have : (acc * P + n / 10) * 10 + (48 + n % 10 - 48) = acc * (P * 10) + (n / 10 * 10 + n % 10) := by
        ring_nf
        omega
      rw [this]
      have h2 : n / 10 * 10 + n % 10 = n := by omega
      rw [h2]

theorem digitsVal_natToChars (n : Nat) : digitsVal (natToChars n) 0 = n := by
  rw [show natToChars n = if n = 0 then ['0'] else natToCharsAux n n from rfl]
  by_cases h0 : n = 0
  · simp [h0]
    decide
  · rw [if_neg h0, digitsVal_natToCharsAux n n 0 (le_refl n)]
    simp

theorem takeWhile_append_all {p : Char → Bool} (u v : List Char) (hu : ∀ a ∈ u, p a = true)
    (hv : ∀ c tl, v = c :: tl → p c = false) :
    (u ++ v).takeWhile p = u ∧ (u ++ v).dropWhile p = v := by
  induction u with
  | nil =>
    simp only [List.nil_append]
    match v with
    | [] => exact ⟨rfl, rfl⟩
    | c :: tl =>
      have hc : p c = false := hv c tl rfl
      rw [List.takeWhile_cons, List.dropWhile_cons, hc]
      simp
  | cons a u ih =>
    have ha : p a = true := hu a (by simp)
    have hu2 : ∀ b ∈ u, p b = true := fun b hb => hu b (by simp [hb])
    rw [show (a :: u) ++ v = a :: (u ++ v) from rfl, List.takeWhile_cons, List.dropWhile_cons, ha]
    obtain ⟨h1, h2⟩ := ih hu2
    simp [h1, h2]

theorem parseNatChars_natToChars (n : Nat) (r : List Char) (hr : headNotDigit r = true) :
    parseNatChars (natToChars n ++ r) = some (n, r) := by
  have hv : ∀ c tl, r = c :: tl → isDigitChar c = false := by
    intro c tl hc
    rw [hc] at hr
    rw [show headNotDigit (c :: tl) = !isDigitChar c from rfl] at hr
    simp at hr
    exact hr
  obtain ⟨h1, h2⟩ := takeWhile_append_all (natToChars n) r (natToChars_digits n) hv
  rw [show parseNatChars (natToChars n ++ r)
    = if (natToChars n ++ r).takeWhile isDigitChar = [] then none
      else some (digitsVal ((natToChars n ++ r).takeWhile isDigitChar) 0,
        (natToChars n ++ r).dropWhile isDigitChar) from rfl]
  rw [h1, h2, if_neg (natToChars_ne_nil n), digitsVal_natToChars]

theorem pjs_quote (r : List Char) : parseJStringBody ('"' :: r) = some ([], r) := by
  rw [parseJStringBody.eq_def]
  rfl

theorem pjs_esc_quote (x : List Char) : parseJStringBody ('\\' :: '"' :: x)
    = (parseJStringBody x).map (fun p => ('"' :: p.1, p.2)) := by
  rw [parseJStringBody.eq_def]
  rfl

theorem pjs_esc_backslash (x : List Char) : parseJStringBody ('\\' :: '\\' :: x)
    = (parseJStringBody x).map (fun p => ('\\' :: p.1, p.2)) := by
  rw [parseJStringBody.eq_def]
  rfl

theorem pjs_esc_n (x : List Char) : parseJStringBody ('\\' :: 'n' :: x)
    = (parseJStringBody x).map (fun p => ('\n' :: p.1, p.2)) := by
  rw [parseJStringBody.eq_def]
  rfl

theorem pjs_esc_r (x : List Char) : parseJStringBody ('\\' :: 'r' :: x)
    = (parseJStringBody x).map (fun p => ('\r' :: p.1, p.2)) := by
  rw [parseJStringBody.eq_def]
  rfl

theorem pjs_esc_t (x : List Char) : parseJStringBody ('\\' :: 't' :: x)
    = (parseJStringBody x).map (fun p => ('\t' :: p.1, p.2)) := by
  rw [parseJStringBody.eq_def]
  rfl

theorem pjs_esc_b (x : List Char) : parseJStringBody ('\\' :: 'b' :: x)
    = (parseJStringBody x).map (fun p => ('\x08' :: p.1, p.2)) := by
  rw [parseJStringBody.eq_def]
  rfl

theorem pjs_esc_f (x : List Char) : parseJStringBody ('\\' :: 'f' :: x)
    = (parseJStringBody x).map (fun p => ('\x0c' :: p.1, p.2)) := by
  rw [parseJStringBody.eq_def]
  rfl

theorem pjs_esc_u (h1 h2 h3 h4 : Char) (x : List Char) :
    parseJStringBody ('\\' :: 'u' :: h1 :: h2 :: h3 :: h4 :: x)
    = (match hexVal h1, hexVal h2, hexVal h3, hexVal h4 with
      | some v1, some v2, some v3, some v4 =>
        (parseJStringBody x).map
          (fun p => (Char.ofNat (((v1 * 16 + v2) * 16 + v3) * 16 + v4) :: p.1, p.2))
      | _, _, _, _ => none) := by
  rw [parseJStringBody.eq_def]
  rfl

theorem pjs_plain (c : Char) (rest : List Char) (h1 : c ≠ '"') (h2 : c ≠ '\\') :
    parseJStringBody (c :: rest) = (parseJStringBody rest).map (fun p => (c :: p.1, p.2)) := by
  rw [parseJStringBody.eq_def]
  simp [h1, h2]

theorem parseJStringBody_escape (m : List Char) (r : List Char) :
    parseJStringBody (jsonEscape m ++ '"' :: r) = some (m, r) := by
  induction m with
  | nil => rw [show jsonEscape [] ++ '"' :: r = '"' :: r from rfl, pjs_quote]
  | cons c cs ih =>
    rw [show jsonEscape (c :: cs) ++ '"' :: r = jsonEscapeChar c ++ (jsonEscape cs ++ '"' :: r)
      from by rw [show jsonEscape (c :: cs) = jsonEscapeChar c ++ jsonEscape cs from rfl,
        List.append_assoc]]
    by_cases h1 : c = '"'
    · subst h1
      rw [show jsonEscapeChar '"' ++ (jsonEscape cs ++ '"' :: r)
        = '\\' :: '"' :: (jsonEscape cs ++ '"' :: r) from rfl, pjs_esc_quote, ih]
      rfl
    · by_cases h2 : c = '\\'
      · subst h2
        rw [show jsonEscapeChar '\\' ++ (jsonEscape cs ++ '"' :: r)
          = '\\' :: '\\' :: (jsonEscape cs ++ '"' :: r) from rfl, pjs_esc_backslash, ih]
        rfl
      · by_cases h3 : c = '\n'
        · subst h3
          rw [show jsonEscapeChar '\n' ++ (jsonEscape cs ++ '"' :: r)
            = '\\' :: 'n' :: (jsonEscape cs ++ '"' :: r) from rfl, pjs_esc_n, ih]
          rfl
        · by_cases h4 : c = '\r'
          · subst h4
            rw [show jsonEscapeChar '\r' ++ (jsonEscape cs ++ '"' :: r)
              = '\\' :: 'r' :: (jsonEscape cs ++ '"' :: r) from rfl, pjs_esc_r, ih]
            rfl
          · by_cases h5 : c = '\t'
            · subst h5
              rw [show jsonEscapeChar '\t' ++ (jsonEscape cs ++ '"' :: r)
                = '\\' :: 't' :: (jsonEscape cs ++ '"' :: r) from rfl, pjs_esc_t, ih]
              rfl
            · by_cases h6 : c = '\x08'
              · subst h6
                rw [show jsonEscapeChar '\x08' ++ (jsonEscape cs ++ '"' :: r)
                  = '\\' :: 'b' :: (jsonEscape cs ++ '"' :: r) from rfl, pjs_esc_b, ih]
                rfl
              · by_cases h7 : c = '\x0c'
                · subst h7
                  rw [show jsonEscapeChar '\x0c' ++ (jsonEscape cs ++ '"' :: r)
                    = '\\' :: 'f' :: (jsonEscape cs ++ '"' :: r) from rfl, pjs_esc_f, ih]
                  rfl
                · by_cases h8 : c.toNat < 32
                  · rw [show jsonEscapeChar c = ['\\', 'u', '0', '0',
                      hexDigitChar (c.toNat / 16), hexDigitChar (c.toNat % 16)] from by
                      simp [jsonEscapeChar, h1, h2, h3, h4, h5, h6, h7, h8]]
                    rw [show ['\\', 'u', '0', '0', hexDigitChar (c.toNat / 16),
                      hexDigitChar (c.toNat % 16)] ++ (jsonEscape cs ++ '"' :: r)
                      = '\\' :: 'u' :: '0' :: '0' :: hexDigitChar (c.toNat / 16) ::
                        hexDigitChar (c.toNat % 16) :: (jsonEscape cs ++ '"' :: r) from rfl]
                    rw [pjs_esc_u]
                    rw [show hexVal '0' = some 0 from rfl]
                    rw [hexVal_hexDigitChar (c.toNat / 16) (by omega),
                      hexVal_hexDigitChar (c.toNat % 16) (by omega)]
                    rw [ih]
                    have hc : Char.ofNat (c.toNat / 16 * 16 + c.toNat % 16) = c := by
                      rw [show c.toNat / 16 * 16 + c.toNat % 16 = c.toNat from by omega,
                        Char.ofNat_toNat]
                    simp [hc]
                  · rw [show jsonEscapeChar c = [c] from by
                      simp [jsonEscapeChar, h1, h2, h3, h4, h5, h6, h7, h8]]
                    rw [show [c] ++ (jsonEscape cs ++ '"' :: r)
                      = c :: (jsonEscape cs ++ '"' :: r) from rfl]
                    rw [pjs_plain c _ h1 h2, ih]
                    rfl

theorem parseJVal_string (s : String) (r : List Char) :
    parseJVal (jsonStringChars s ++ r) = some (JVal.str s, r) := by
  rw [show jsonStringChars s ++ r = '"' :: (jsonEscape s.data ++ '"' :: r) from by
    rw [show jsonStringChars s = '"' :: (jsonEscape s.data ++ ['"']) from rfl]
    simp]
  rw [parseJVal.eq_def]
  rw [show (match ('"' :: (jsonEscape s.data ++ '"' :: r)) with
    | [] => none
    | c :: rest =>
      if c = '"' then (parseJStringBody rest).map (fun p => (JVal.str (String.mk p.1), p.2))
      else if c = '-' then (parseNatChars rest).map (fun p => (JVal.int (-(p.1 : Int)), p.2))
      else (parseNatChars (c :: rest)).map (fun p => (JVal.int (p.1 : Int), p.2)))
    = (parseJStringBody (jsonEscape s.data ++ '"' :: r)).map
        (fun p => (JVal.str (String.mk p.1), p.2)) from rfl]
  rw [parseJStringBody_escape]
  rfl

theorem digit_ne (c : Char) (h : isDigitChar c = true) : c ≠ '"' ∧ c ≠ '-' :=
  ⟨fun he => by subst he; exact absurd h (by decide),
   fun he => by subst he; exact absurd h (by decide)⟩

theorem parseJVal_int (i : Int) (r : List Char) (hr : headNotDigit r = true) :
    parseJVal (intToChars i ++ r) = some (JVal.int i, r) := by
  by_cases hneg : i < 0
  · rw [show intToChars i = '-' :: natToChars i.natAbs from by simp [intToChars, hneg]]
    rw [show ('-' :: natToChars i.natAbs) ++ r = '-' :: (natToChars i.natAbs ++ r) from rfl]
    rw [parseJVal.eq_def]
    rw [show (match ('-' :: (natToChars i.natAbs ++ r)) with
      | [] => none
      | c :: rest =>
        if c = '"' then (parseJStringBody rest).map (fun p => (JVal.str (String.mk p.1), p.2))
        else if c = '-' then (parseNatChars rest).map (fun p => (JVal.int (-(p.1 : Int)), p.2))
        else (parseNatChars (c :: rest)).map (fun p => (JVal.int (p.1 : Int), p.2)))
      = (parseNatChars (natToChars i.natAbs ++ r)).map
          (fun p => (JVal.int (-(p.1 : Int)), p.2)) from rfl]
    rw [parseNatChars_natToChars _ _ hr]
    have he : -(i.natAbs : Int) = i := by omega
    rw [show (some (i.natAbs, r) : Option (Nat × List Char)).map
      (fun p => (JVal.int (-(p.1 : Int)), p.2)) = some (JVal.int (-(i.natAbs : Int)), r) from rfl]
    rw [he]
  · rw [show intToChars i = natToChars i.natAbs from by simp [intToChars, hneg]]
    obtain ⟨c, tl, hct⟩ : ∃ c tl, natToChars i.natAbs = c :: tl := by
      match h : natToChars i.natAbs with
      | [] => exact absurd h (natToChars_ne_nil _)
      | c :: tl => exact ⟨c, tl, rfl⟩
    have hdig : isDigitChar c = true := by
      apply natToChars_digits i.natAbs
      rw [hct]
      simp
    have hne := digit_ne c hdig
    rw [hct, show (c :: tl) ++ r = c :: (tl ++ r) from rfl]
    rw [parseJVal.eq_def]
    simp only [hne.1, hne.2, if_false, ite_false]
    rw [show c :: (tl ++ r) = (c :: tl) ++ r from rfl, ← hct, parseNatChars_natToChars _ _ hr]
    have he : (i.natAbs : Int) = i := by omega
    simp [he]

theorem parsePairs_errorPayload (m : String) (e : Int) (fuel : Nat) :
    parsePairs (fuel + 2)
      ('"' :: 'e' :: 'r' :: 'r' :: 'o' :: 'r' :: '"' :: ':' :: '"' ::
        (jsonEscape m.data ++ '"' :: ',' :: '"' :: 'e' :: 'x' :: 'p' :: '"' :: ':' ::
          (intToChars e ++ ['\x7d'])))
    = some ([(['e', 'r', 'r', 'o', 'r'], JVal.str m), (['e', 'x', 'p'], JVal.int e)], ['\x7d']) := by
  have h1 : ∀ x : List Char, ('e' :: 'r' :: 'r' :: 'o' :: 'r' :: '"' :: x)
      = jsonEscape ['e', 'r', 'r', 'o', 'r'] ++ '"' :: x := fun x => rfl
  have h2 : ∀ x : List Char, ('e' :: 'x' :: 'p' :: '"' :: x)
      = jsonEscape ['e', 'x', 'p'] ++ '"' :: x := fun x => rfl
  have hint : parseJVal (intToChars e ++ ['\x7d']) = some (JVal.int e, ['\x7d']) :=
    parseJVal_int e ['\x7d'] (by decide)
  have hval : ∀ z : List Char, parseJVal ('"' :: (jsonEscape m.data ++ '"' :: z))
      = some (JVal.str m, z) := by
    intro z
    have h := parseJVal_string m z
    rw [show jsonStringChars m ++ z = '"' :: (jsonEscape m.data ++ '"' :: z) from by
      simp [jsonStringChars]] at h
    exact h
  rw [parsePairs.eq_def]
  simp only [h1, List.cons_append, List.nil_append, parseJStringBody_escape, hval]
  rw [parsePairs.eq_def]
  simp only [h2, List.cons_append, List.nil_append, parseJStringBody_escape, hint]
  simp

theorem parsePairs_errorPayload_ge (m : String) (e : Int) (fuel : Nat) (h : 2 ≤ fuel) :
    parsePairs fuel
      ('"' :: 'e' :: 'r' :: 'r' :: 'o' :: 'r' :: '"' :: ':' :: '"' ::
        (jsonEscape m.data ++ '"' :: ',' :: '"' :: 'e' :: 'x' :: 'p' :: '"' :: ':' ::
          (intToChars e ++ ['\x7d'])))
    = some ([(['e', 'r', 'r', 'o', 'r'], JVal.str m), (['e', 'x', 'p'], JVal.int e)], ['\x7d']) := by
  obtain ⟨f, rfl⟩ : ∃ f, fuel = f + 2 := ⟨fuel - 2, by omega⟩
  exact parsePairs_errorPayload m e f

theorem parseObject_errorPayload (m : String) (e : Int) :
    parseObject (errorPayloadChars m e)
    = some ([(['e', 'r', 'r', 'o', 'r'], JVal.str m), (['e', 'x', 'p'], JVal.int e)], []) := by
  rw [show errorPayloadChars m e = '\x7b' :: '"' :: 'e' :: 'r' :: 'r' :: 'o' :: 'r' :: '"' :: ':'
    :: '"' :: (jsonEscape m.data ++ '"' :: ',' :: '"' :: 'e' :: 'x' :: 'p' :: '"' :: ':' ::
      (intToChars e ++ ['\x7d'])) from by
    simp only [errorPayloadChars, jsonStringChars, List.append_assoc, List.cons_append,
      List.nil_append]]
  rw [parseObject.eq_def]
  have hlen : 2 ≤ ('"' :: 'e' :: 'r' :: 'r' :: 'o' :: 'r' :: '"' :: ':' :: '"' ::
      (jsonEscape m.data ++ '"' :: ',' :: '"' :: 'e' :: 'x' :: 'p' :: '"' :: ':' ::
        (intToChars e ++ ['\x7d']))).length := by
    simp
  simp only [parsePairs_errorPayload_ge m e _ hlen]
  simp

theorem afterFirstDot_append (H r : List Char) (h : ∀ c ∈ H, c ≠ '.') :
    afterFirstDot (H ++ '.' :: r) = some r := by
  induction H with
  | nil =>
    rw [List.nil_append, afterFirstDot.eq_def]
    simp
  | cons c tl ih =>
    have hc : c ≠ '.' := h c (by simp)
    rw [show (c :: tl) ++ '.' :: r = c :: (tl ++ '.' :: r) from rfl, afterFirstDot.eq_def]
    simp only [hc, if_false, ite_false, if_neg]
    exact ih (fun x hx => h x (by simp [hx]))

theorem takeUntilDot_no_dot (l : List Char) (h : ∀ c ∈ l, c ≠ '.') : takeUntilDot l = l := by
  induction l with
  | nil => rfl
  | cons c tl ih =>
    have hc : c ≠ '.' := h c (by simp)
    rw [takeUntilDot.eq_def]
    simp only [hc, if_false, ite_false, if_neg]
    rw [ih (fun x hx => h x (by simp [hx]))]

theorem jwtDecode_errorToken (m : String) (now : Int) :
    jwtDecode (errorToken m now) = some (Payload.mk (some m) (some (now + 60)) none) := by
  have hH : ∀ c ∈ base64url (utf8Encode headerChars), c ≠ '.' :=
    base64url_no_dot _ (utf8Encode_lt _)
  have hD : ∀ c ∈ base64url (utf8Encode (errorPayloadChars m (now + 60))), c ≠ '.' :=
    base64url_no_dot _ (utf8Encode_lt _)
  show jwtDecodeChars (base64url (utf8Encode headerChars) ++ '.' ::
    base64url (utf8Encode (errorPayloadChars m (now + 60)))) = _
  have hseg : secondSegment (base64url (utf8Encode headerChars) ++ '.' ::
      base64url (utf8Encode (errorPayloadChars m (now + 60))))
      = some (base64url (utf8Encode (errorPayloadChars m (now + 60)))) := by
    simp only [secondSegment]
    rw [afterFirstDot_append _ _ hH, Option.map_some', takeUntilDot_no_dot _ hD]
  have hb64 : b64DecodeChars (base64url (utf8Encode (errorPayloadChars m (now + 60))))
      = some (utf8Encode (errorPayloadChars m (now + 60))) :=
    b64_roundtrip _ (utf8Encode_lt _)
  have hutf8 : utf8Decode (utf8Encode (errorPayloadChars m (now + 60)))
      = some (errorPayloadChars m (now + 60)) := utf8_roundtrip _
  have hobj := parseObject_errorPayload m (now + 60)
  simp only [jwtDecodeChars, hseg, hb64, hutf8, hobj]
  simp [payloadOfFields, getStrField, getIntField]

theorem utf8Encode_length (l : List Char) : l.length ≤ (utf8Encode l).length := by
  induction l with
  | nil => simp [utf8Encode]
  | cons c cs ih =>
    rw [show utf8Encode (c :: cs) = utf8EncodeChar c ++ utf8Encode cs from rfl]
    have h : 1 ≤ (utf8EncodeChar c).length := by
      by_cases h1 : c.toNat < 128
      · simp [utf8EncodeChar, h1]
      · by_cases h2 : c.toNat < 2048
        · simp [utf8EncodeChar, h1, h2]
        · by_cases h3 : c.toNat < 65536 <;> simp [utf8EncodeChar, h1, h2, h3]
    simp only [List.length_append, List.length_cons]
    omega


/-! ## The Error Token Factory and the Validity Checker -/

theorem jsonEscape_length (l : List Char) : l.length ≤ (jsonEscape l).length := by
  induction l with
  | nil => simp [jsonEscape]
  | cons c cs ih =>
    rw [show jsonEscape (c :: cs) = jsonEscapeChar c ++ jsonEscape cs from rfl]
    have h : 1 ≤ (jsonEscapeChar c).length := by
      simp only [jsonEscapeChar]
      repeat' split
      all_goals simp
    simp only [List.length_append, List.length_cons]
    omega

theorem errorToken_longer (m : String) (now : Int) :
    m.data.length < (errorToken m now).data.length := by
  show m.data.length < (base64url (utf8Encode headerChars) ++ '.' ::
    base64url (utf8Encode (errorPayloadChars m (now + 60)))).length
  have h1 := base64url_length (utf8Encode (errorPayloadChars m (now + 60)))
  have h2 := utf8Encode_length (errorPayloadChars m (now + 60))
  have h3 : m.data.length + 1 ≤ (errorPayloadChars m (now + 60)).length := by
    have h4 := jsonEscape_length m.data
    simp only [errorPayloadChars, jsonStringChars, List.length_append, List.length_cons,
      List.length_nil]
    omega
  simp only [List.length_append, List.length_cons]
  omega

theorem errorToken_ne_message (m : String) (now : Int) : errorToken m now ≠ m := by
  intro h
  have hlen := errorToken_longer m now
  rw [h] at hlen
  omega

theorem validToken_errorToken (m : String) (now t : Int) :
    validToken (errorToken m now) t = (!decide (now + 60 < t)) := by
  simp only [validToken, jwtDecode_errorToken m now, checkExp, checkNbf]
  by_cases h : now + 60 < t
  · simp [h]
  · simp [h]

/-- C5: for every message `m` and call time `now`, the Error Token Factory
produces a two-segment token whose decoded payload has `error = m` and
`exp = now + 60`; the Validity Checker accepts that token at time `now + 59`
and rejects it at time `now + 61`. -/
theorem C5_errorToken_payload_ttl (m : String) (now : Int) :
    jwtDecode (errorToken m now) = some (Payload.mk (some m) (some (now + 60)) none) ∧
    validToken (errorToken m now) (now + 59) = true ∧
    validToken (errorToken m now) (now + 61) = false := by
  refine ⟨jwtDecode_errorToken m now, ?_, ?_⟩
  · rw [validToken_errorToken]
    simp
  · rw [validToken_errorToken]
    simp

/-- C4: the Validity Checker returns `false` exactly when the token fails to
decode, or the decoded payload has an `exp` claim strictly in the past, or an
`nbf` claim strictly in the future; in every other case (including a payload
with neither claim) it returns `true`, and a decode failure is never
propagated as an error (the checker is a total Boolean function). -/
theorem C4_validToken_characterization (t : String) (now : Int) :
    validToken t now = false ↔
      jwtDecode t = none ∨ ∃ p, jwtDecode t = some p ∧
        ((∃ e, p.exp = some e ∧ e < now) ∨ (∃ nb, p.nbf = some nb ∧ now < nb)) := by
  cases hd : jwtDecode t with
  | none => simp [validToken, hd]
  | some p =>
    rcases p with ⟨err, exp?, nbf?⟩
    cases exp? with
    | none =>
      cases nbf? with
      | none => simp [validToken, hd, checkExp, checkNbf]
      | some nb => simp [validToken, hd, checkExp, checkNbf]
    | some e =>
      cases nbf? with
      | none => simp [validToken, hd, checkExp, checkNbf]
      | some nb =>
        by_cases he : e < now
        · simp [validToken, hd, checkExp, checkNbf, he]
        · by_cases hn : now < nb <;> simp [validToken, hd, checkExp, checkNbf, he, hn]

/-- C9: the Validity Checker's time comparisons are strict: a payload whose
`exp` claim equals the clock exactly is still valid, and a payload whose `nbf`
claim equals the clock exactly is also valid (provided the other claim does
not independently invalidate the token). -/
theorem C9_strict_time_boundaries (t : String) (now : Int) (p : Payload)
    (hd : jwtDecode t = some p) :
    (p.exp = some now → (∀ nb, p.nbf = some nb → nb ≤ now) → validToken t now = true) ∧
    (p.nbf = some now → (∀ e, p.exp = some e → now ≤ e) → validToken t now = true) := by
  constructor
  · intro hexp hnbf
    simp only [validToken, hd, checkExp, checkNbf, hexp]
    cases hn : p.nbf with
    | none => simp
    | some nb =>
      have := hnbf nb hn
      simp
      omega
  · intro hnbf hexp
    simp only [validToken, hd, checkExp, checkNbf, hnbf]
    cases he : p.exp with
    | none => simp
    | some e =>
      have := hexp e he
      simp
      omega

theorem C9_witness :
    validToken (errorToken "x" 0) 60 = true ∧ validToken tokenNbf 7 = true := by
  constructor
  · exact (C9_strict_time_boundaries (errorToken "x" 0) 60
      (Payload.mk (some "x") (some 60) none) (jwtDecode_errorToken "x" 0)).1 rfl
      (fun nb h => by cases h)
  · exact (C9_strict_time_boundaries tokenNbf 7 (Payload.mk none none (some 7))
      (by decide)).2 rfl (fun e h => by cases h)


/-! ## The Cache Orchestrator -/

/-- C1: for every credential set that passes validation, when the cache lookup
yields no usable token and the Authentication Client fails with message `m`,
`run` does not raise: it stores the encoded error token under the computed key
and returns the bare message `m` (which is never equal to the encoded
sentinel) as an ordinary result. -/
theorem C1_auth_failure_negative_cache (auth : AuthClient) (store : Store) (a : Args) (now : Int)
    (m : String) (hU : a.Username ≠ "") (hP : a.Password ≠ "") (hR : a.Region ≠ "")
    (hC : a.ClientId ≠ "") (hUP : a.UserPoolId ≠ "")
    (hmiss : ¬((getItem store (cacheKey (withDefaultTokenType a))).getD "" ≠ "" ∧
      validToken ((getItem store (cacheKey (withDefaultTokenType a))).getD "") now = true))
    (hauth : auth (withDefaultTokenType a) = Except.error m) :
    run auth store a now =
      (Except.ok m, setItem store (cacheKey (withDefaultTokenType a)) (errorToken m now),
       [Event.get (cacheKey (withDefaultTokenType a)), Event.auth (withDefaultTokenType a),
        Event.set (cacheKey (withDefaultTokenType a)) (errorToken m now)]) ∧
    errorToken m now ≠ m := by
  refine ⟨?_, errorToken_ne_message m now⟩
  simp only [run]
  rw [if_neg hU, if_neg hP, if_neg hR, if_neg hC, if_neg hUP, if_neg hmiss, hauth]

theorem C1_witness :
    run (fun _ => Except.error "bad") [] wArgs 0 =
      (Except.ok "bad", setItem [] (cacheKey (withDefaultTokenType wArgs)) (errorToken "bad" 0),
       [Event.get (cacheKey (withDefaultTokenType wArgs)), Event.auth (withDefaultTokenType wArgs),
        Event.set (cacheKey (withDefaultTokenType wArgs)) (errorToken "bad" 0)]) ∧
    errorToken "bad" 0 ≠ "bad" :=
  C1_auth_failure_negative_cache (fun _ => Except.error "bad") [] wArgs 0 "bad"
    (by decide) (by decide) (by decide) (by decide) (by decide) (by decide) rfl

/-- C2 counterexample: the cache can hold a valid sentinel token whose
decoded `error` claim is present but empty (`errorToken "" 0`); the orchestrator
then returns the cached token string, not the (present) empty error claim,
because the code tests the claim for truthiness rather than presence. -/
theorem C2_cache_hit_counterexample :
    jwtDecode (errorToken "" 0) = some (Payload.mk (some "") (some 60) none) ∧
    validToken (errorToken "" 0) 0 = true ∧
    run (fun _ => Except.error "x") [(cacheKey wArgs, errorToken "" 0)] wArgs 0 =
      (Except.ok (errorToken "" 0), [(cacheKey wArgs, errorToken "" 0)],
       [Event.get (cacheKey wArgs)]) ∧
    errorToken "" 0 ≠ "" := by
  refine ⟨by decide, by decide, rfl, by decide⟩

/-- C2 (amended): on a valid cache hit the Authentication Client is not
invoked and the cache is not written; the call returns the decoded payload's
`error` claim when that claim is present and non-empty, and otherwise (claim
absent or empty) returns the cached token string unchanged. -/
theorem C2_cache_hit_amended (auth : AuthClient) (store : Store) (a : Args) (now : Int)
    (t : String) (hU : a.Username ≠ "") (hP : a.Password ≠ "") (hR : a.Region ≠ "")
    (hC : a.ClientId ≠ "") (hUP : a.UserPoolId ≠ "")
    (hget : getItem store (cacheKey (withDefaultTokenType a)) = some t)
    (hne : t ≠ "") (hvalid : validToken t now = true) :
    run auth store a now =
      (Except.ok (if ((jwtDecode t).bind Payload.error).getD "" = "" then t
        else ((jwtDecode t).bind Payload.error).getD ""), store,
       [Event.get (cacheKey (withDefaultTokenType a))]) := by
  simp only [run]
  rw [if_neg hU, if_neg hP, if_neg hR, if_neg hC, if_neg hUP, hget]
  simp only [Option.getD_some]
  rw [if_pos ⟨hne, hvalid⟩]
  by_cases he : ((jwtDecode t).bind Payload.error).getD "" = ""
  · rw [if_neg (by simp [he]), if_pos he]
  · rw [if_pos he, if_neg he]

theorem C2_witness :
    run (fun _ => Except.error "x") [(cacheKey wArgs, tokenNoClaims)] wArgs 0 =
      (Except.ok (if ((jwtDecode tokenNoClaims).bind Payload.error).getD "" = "" then tokenNoClaims
        else ((jwtDecode tokenNoClaims).bind Payload.error).getD ""),
       [(cacheKey wArgs, tokenNoClaims)],
       [Event.get (cacheKey (withDefaultTokenType wArgs))]) :=
  C2_cache_hit_amended (fun _ => Except.error "x") [(cacheKey wArgs, tokenNoClaims)] wArgs 0
    tokenNoClaims (by decide) (by decide) (by decide) (by decide) (by decide) (by decide)
    (by decide) (by decide)

/-- C3: for every credential set that passes validation, when the cache has no
entry under the key or the entry fails the Validity Checker, `run` invokes
the Authentication Client with the full credential set and on success stores
the returned token under the key and returns it; moreover a missing entry and
an invalid entry produce exactly the same result and the same collaborator
trace. -/
theorem C3_miss_or_invalid_authenticates (auth : AuthClient) (store : Store) (a : Args)
    (now : Int) (tok : String) (hU : a.Username ≠ "") (hP : a.Password ≠ "")
    (hR : a.Region ≠ "") (hC : a.ClientId ≠ "") (hUP : a.UserPoolId ≠ "")
    (hmiss : ¬((getItem store (cacheKey (withDefaultTokenType a))).getD "" ≠ "" ∧
      validToken ((getItem store (cacheKey (withDefaultTokenType a))).getD "") now = true))
    (hauth : auth (withDefaultTokenType a) = Except.ok tok) :
    run auth store a now =
      (Except.ok tok, setItem store (cacheKey (withDefaultTokenType a)) tok,
       [Event.get (cacheKey (withDefaultTokenType a)), Event.auth (withDefaultTokenType a),
        Event.set (cacheKey (withDefaultTokenType a)) tok]) ∧
    (∀ s1 s2 : Store, getItem s1 (cacheKey (withDefaultTokenType a)) = none →
      (∃ t, getItem s2 (cacheKey (withDefaultTokenType a)) = some t ∧
        validToken t now = false) →
      (run auth s1 a now).1 = (run auth s2 a now).1 ∧
      (run auth s1 a now).2.2 = (run auth s2 a now).2.2) := by
  constructor
  · simp only [run]
    rw [if_neg hU, if_neg hP, if_neg hR, if_neg hC, if_neg hUP, if_neg hmiss, hauth]
  · intro s1 s2 h1 h2
    obtain ⟨t, ht, hv⟩ := h2
    simp [run, hU, hP, hR, hC, hUP, h1, ht, hv]
    cases hres : auth (withDefaultTokenType a) <;> simp [hres]


theorem C3_witness :
    run (fun _ => Except.ok "tok123") [] wArgs 0 =
      (Except.ok "tok123", setItem [] (cacheKey (withDefaultTokenType wArgs)) "tok123",
       [Event.get (cacheKey (withDefaultTokenType wArgs)), Event.auth (withDefaultTokenType wArgs),
        Event.set (cacheKey (withDefaultTokenType wArgs)) "tok123"]) ∧
    ((run (fun _ => Except.ok "tok123") [] wArgs 0).1
      = (run (fun _ => Except.ok "tok123")
          [(cacheKey (withDefaultTokenType wArgs), errorToken "e" (-200))] wArgs 0).1 ∧
     (run (fun _ => Except.ok "tok123") [] wArgs 0).2.2
      = (run (fun _ => Except.ok "tok123")
          [(cacheKey (withDefaultTokenType wArgs), errorToken "e" (-200))] wArgs 0).2.2) := by
  have h := C3_miss_or_invalid_authenticates (fun _ => Except.ok "tok123") [] wArgs 0 "tok123"
    (by decide) (by decide) (by decide) (by decide) (by decide) (by decide) rfl
  exact ⟨h.1, h.2 [] [(cacheKey (withDefaultTokenType wArgs), errorToken "e" (-200))] rfl
    ⟨errorToken "e" (-200), rfl, by decide⟩⟩

/-- C7: when any of the five mandatory fields is empty, `run` raises an error
naming a missing field before any cache read, cache write, or Authentication
Client call (the store is returned unchanged and the collaborator trace is
empty); when all five are present and the token type is unset, the call
behaves exactly as with token type `"access"`. -/
theorem C7_validation_and_default (auth : AuthClient) (store : Store) (a : Args) (now : Int) :
    ((a.Username = "" ∨ a.Password = "" ∨ a.Region = "" ∨ a.ClientId = "" ∨ a.UserPoolId = "") →
      run auth store a now
        = (Except.error (firstMissing a ++ " attribute is required"), store, []) ∧
      namesEmptyField a (firstMissing a)) ∧
    (a.Username ≠ "" → a.Password ≠ "" → a.Region ≠ "" → a.ClientId ≠ "" → a.UserPoolId ≠ "" →
      a.TokenType = "" →
      run auth store a now = run auth store
        (Args.mk a.Username a.Password a.Region a.ClientId a.UserPoolId "access" a.ClientSecret)
        now) := by
  constructor
  · intro hor
    by_cases h1 : a.Username = ""
    · refine ⟨?_, by simp [namesEmptyField, firstMissing, h1]⟩
      simp only [run, firstMissing]
      rw [if_pos h1, if_pos h1]
      rfl
    · by_cases h2 : a.Password = ""
      · refine ⟨?_, by simp [namesEmptyField, firstMissing, h1, h2]⟩
        simp only [run, firstMissing]
        rw [if_neg h1, if_neg h1, if_pos h2, if_pos h2]
        rfl
      · by_cases h3 : a.Region = ""
        · refine ⟨?_, by simp [namesEmptyField, firstMissing, h1, h2, h3]⟩
          simp only [run, firstMissing]
          rw [if_neg h1, if_neg h1, if_neg h2, if_neg h2, if_pos h3, if_pos h3]
          rfl
        · by_cases h4 : a.ClientId = ""
          · refine ⟨?_, by simp [namesEmptyField, firstMissing, h1, h2, h3, h4]⟩
            simp only [run, firstMissing]
            rw [if_neg h1, if_neg h1, if_neg h2, if_neg h2, if_neg h3, if_neg h3,
              if_pos h4, if_pos h4]
            rfl
          · have h5 : a.UserPoolId = "" := by
              rcases hor with h | h | h | h | h
              · exact absurd h h1
              · exact absurd h h2
              · exact absurd h h3
              · exact absurd h h4
              · exact h
            refine ⟨?_, by simp [namesEmptyField, firstMissing, h1, h2, h3, h4, h5]⟩
            simp only [run, firstMissing]
            rw [if_neg h1, if_neg h1, if_neg h2, if_neg h2, if_neg h3, if_neg h3,
              if_neg h4, if_neg h4, if_pos h5]
            rfl
  · intro h1 h2 h3 h4 h5 h6
    simp [run, withDefaultTokenType, h1, h2, h3, h4, h5, h6]

theorem C7_witness :
    (run (fun _ => Except.ok "t") [] (Args.mk "" "p" "r" "c" "pool" "access" none) 0
      = (Except.error (firstMissing (Args.mk "" "p" "r" "c" "pool" "access" none)
          ++ " attribute is required"), [], []) ∧
     namesEmptyField (Args.mk "" "p" "r" "c" "pool" "access" none)
       (firstMissing (Args.mk "" "p" "r" "c" "pool" "access" none))) ∧
    run (fun _ => Except.ok "t") [] (Args.mk "u" "p" "r" "c" "pool" "" none) 0
      = run (fun _ => Except.ok "t") [] (Args.mk "u" "p" "r" "c" "pool" "access" none) 0 :=
  ⟨(C7_validation_and_default (fun _ => Except.ok "t") []
      (Args.mk "" "p" "r" "c" "pool" "access" none) 0).1 (Or.inl rfl),
   (C7_validation_and_default (fun _ => Except.ok "t") []
      (Args.mk "u" "p" "r" "c" "pool" "" none) 0).2
     (by decide) (by decide) (by decide) (by decide) (by decide) rfl⟩

/-- C8: when the cache lookup returns the empty string, `run` behaves exactly
as on a missing entry: the cached value fails the truthiness test before the
Validity Checker is ever relevant, the Authentication Client is invoked (it
appears in the trace), and result and trace coincide with those of a run on a
store with no entry. -/
theorem C8_empty_string_like_missing (auth : AuthClient) (store : Store) (a : Args) (now : Int)
    (hU : a.Username ≠ "") (hP : a.Password ≠ "") (hR : a.Region ≠ "")
    (hC : a.ClientId ≠ "") (hUP : a.UserPoolId ≠ "")
    (hempty : getItem store (cacheKey (withDefaultTokenType a)) = some "") :
    (∀ tok, auth (withDefaultTokenType a) = Except.ok tok →
      run auth store a now =
        (Except.ok tok, setItem store (cacheKey (withDefaultTokenType a)) tok,
         [Event.get (cacheKey (withDefaultTokenType a)), Event.auth (withDefaultTokenType a),
          Event.set (cacheKey (withDefaultTokenType a)) tok])) ∧
    (∀ msg, auth (withDefaultTokenType a) = Except.error msg →
      run auth store a now =
        (Except.ok msg, setItem store (cacheKey (withDefaultTokenType a)) (errorToken msg now),
         [Event.get (cacheKey (withDefaultTokenType a)), Event.auth (withDefaultTokenType a),
          Event.set (cacheKey (withDefaultTokenType a)) (errorToken msg now)])) ∧
    (∀ s2 : Store, getItem s2 (cacheKey (withDefaultTokenType a)) = none →
      (run auth store a now).1 = (run auth s2 a now).1 ∧
      (run auth store a now).2.2 = (run auth s2 a now).2.2) := by
  refine ⟨?_, ?_, ?_⟩
  · intro tok ha
    simp only [run]
    rw [if_neg hU, if_neg hP, if_neg hR, if_neg hC, if_neg hUP, hempty]
    simp only [Option.getD_some]
    rw [if_neg (by simp), ha]
  · intro msg ha
    simp only [run]
    rw [if_neg hU, if_neg hP, if_neg hR, if_neg hC, if_neg hUP, hempty]
    simp only [Option.getD_some]
    rw [if_neg (by simp), ha]
  · intro s2 h2
    simp [run, hU, hP, hR, hC, hUP, hempty, h2]
    cases hres : auth (withDefaultTokenType a) <;> simp [hres]

theorem C8_witness :
    run (fun _ => Except.ok "tok123")
        [(cacheKey (withDefaultTokenType wArgs), "")] wArgs 0 =
      (Except.ok "tok123",
       setItem [(cacheKey (withDefaultTokenType wArgs), "")]
         (cacheKey (withDefaultTokenType wArgs)) "tok123",
       [Event.get (cacheKey (withDefaultTokenType wArgs)), Event.auth (withDefaultTokenType wArgs),
        Event.set (cacheKey (withDefaultTokenType wArgs)) "tok123"]) ∧
    ((run (fun _ => Except.ok "tok123")
        [(cacheKey (withDefaultTokenType wArgs), "")] wArgs 0).1
      = (run (fun _ => Except.ok "tok123") [] wArgs 0).1 ∧
     (run (fun _ => Except.ok "tok123")
        [(cacheKey (withDefaultTokenType wArgs), "")] wArgs 0).2.2
      = (run (fun _ => Except.ok "tok123") [] wArgs 0).2.2) := by
  have h := C8_empty_string_like_missing (fun _ => Except.ok "tok123")
    [(cacheKey (withDefaultTokenType wArgs), "")] wArgs 0
    (by decide) (by decide) (by decide) (by decide) (by decide) rfl
  exact ⟨h.1 "tok123" rfl, h.2.2 [] rfl⟩


/-! ## The cache key -/

/-- C6: the cache key is a deterministic pure function of the seven credential
fields, and credential sets that differ only in token type always get
different keys. -/
theorem C6_cacheKey_deterministic_tokenType (a b : Args) :
    ((a.Username = b.Username ∧ a.Password = b.Password ∧ a.Region = b.Region ∧
      a.ClientId = b.ClientId ∧ a.UserPoolId = b.UserPoolId ∧ a.TokenType = b.TokenType ∧
      a.ClientSecret = b.ClientSecret) → cacheKey a = cacheKey b) ∧
    ((a.Username = b.Username ∧ a.Password = b.Password ∧ a.Region = b.Region ∧
      a.ClientId = b.ClientId ∧ a.UserPoolId = b.UserPoolId ∧
      a.ClientSecret = b.ClientSecret) → a.TokenType ≠ b.TokenType →
      cacheKey a ≠ cacheKey b) := by
  constructor
  · rintro ⟨h1, h2, h3, h4, h5, h6, h7⟩
    simp [cacheKey, h1, h2, h3, h4, h5, h6, h7]
  · rintro ⟨h1, h2, h3, h4, h5, h7⟩ hne heq
    apply hne
    have hd := congrArg String.data heq
    simp only [cacheKey, h1, h2, h3, h4, h5, h7, String.data_append, List.append_assoc] at hd
    have hd1 := List.append_cancel_left hd
    have hd2 := List.append_cancel_left hd1
    have hd3 := List.append_cancel_left hd2
    have hd4 := List.append_cancel_left hd3
    have hd5 := List.append_cancel_left hd4
    have hd6 := List.append_cancel_left hd5
    have hd7 := List.append_cancel_left hd6
    have hd8 := List.append_cancel_left hd7
    have hd9 := List.append_cancel_left hd8
    have hd10 := List.append_cancel_left hd9
    exact String.ext (List.append_cancel_right hd10)

theorem C6_witness :
    cacheKey wArgs = cacheKey wArgs ∧
    cacheKey wArgs ≠ cacheKey (Args.mk "u" "p" "r" "c" "pool" "id" none) :=
  ⟨(C6_cacheKey_deterministic_tokenType wArgs wArgs).1 ⟨rfl, rfl, rfl, rfl, rfl, rfl, rfl⟩,
   (C6_cacheKey_deterministic_tokenType wArgs (Args.mk "u" "p" "r" "c" "pool" "id" none)).2
     ⟨rfl, rfl, rfl, rfl, rfl, rfl⟩ (by decide)⟩

theorem hasDoubleColon_tail (c : Char) (l : List Char) (h : hasDoubleColon (c :: l) = false) :
    hasDoubleColon l = false := by
  rw [show hasDoubleColon (c :: l)
    = ((if c = ':' then headIsColon l else false) || hasDoubleColon l) from rfl] at h
  exact (Bool.or_eq_false_iff.mp h).2

theorem lastIsColon_tail (c : Char) (l : List Char) (h : lastIsColon (c :: l) = false) :
    lastIsColon l = false := by
  match l with
  | [] => rfl
  | x :: xs =>
    rw [show lastIsColon (c :: x :: xs) = lastIsColon (x :: xs) from rfl] at h
    exact h

theorem joinInj (a1 : List Char) : ∀ a2 r1 r2 : List Char,
    hasDoubleColon a1 = false → lastIsColon a1 = false →
    hasDoubleColon a2 = false → lastIsColon a2 = false →
    a1 ++ ':' :: ':' :: r1 = a2 ++ ':' :: ':' :: r2 → a1 = a2 ∧ r1 = r2 := by
  induction a1 with
  | nil =>
    intro a2 r1 r2 _ _ h2d h2l heq
    cases a2 with
    | nil =>
      simp only [List.nil_append, List.cons.injEq, true_and] at heq
      exact ⟨rfl, heq⟩
    | cons c a2' =>
      simp only [List.nil_append, List.cons_append, List.cons.injEq] at heq
      obtain ⟨hc, heq2⟩ := heq
      cases a2' with
      | nil =>
        rw [show lastIsColon [c] = decide (c = ':') from rfl] at h2l
        rw [← hc] at h2l
        simp at h2l
      | cons c2 a2'' =>
        simp only [List.cons_append, List.cons.injEq] at heq2
        obtain ⟨hc2, _⟩ := heq2
        rw [show hasDoubleColon (c :: c2 :: a2'')
          = ((if c = ':' then headIsColon (c2 :: a2'') else false)
            || hasDoubleColon (c2 :: a2'')) from rfl] at h2d
        rw [← hc, ← hc2] at h2d
        simp [headIsColon] at h2d
  | cons c a1' ih =>
    intro a2 r1 r2 h1d h1l h2d h2l heq
    cases a2 with
    | nil =>
      simp only [List.nil_append, List.cons_append, List.cons.injEq] at heq
      obtain ⟨hc, heq2⟩ := heq
      cases a1' with
      | nil =>
        rw [show lastIsColon [c] = decide (c = ':') from rfl] at h1l
        rw [hc] at h1l
        simp at h1l
      | cons c2 a1'' =>
        simp only [List.cons_append, List.cons.injEq] at heq2
        obtain ⟨hc2, _⟩ := heq2
        rw [show hasDoubleColon (c :: c2 :: a1'')
          = ((if c = ':' then headIsColon (c2 :: a1'') else false)
            || hasDoubleColon (c2 :: a1'')) from rfl] at h1d
        rw [hc, hc2] at h1d
        simp [headIsColon] at h1d
    | cons c2 a2' =>
      simp only [List.cons_append, List.cons.injEq] at heq
      obtain ⟨hc, heq2⟩ := heq
      subst hc
      obtain ⟨ha, hr⟩ := ih a2' r1 r2 (hasDoubleColon_tail _ _ h1d) (lastIsColon_tail _ _ h1l)
        (hasDoubleColon_tail _ _ h2d) (lastIsColon_tail _ _ h2l) heq2
      exact ⟨by rw [ha], hr⟩

/-- C10 counterexample: two distinct credential sets, none of whose seven
fields contains the substring `::`, with equal cache keys — a single `:` at
the end of one field merges with the separator. -/
theorem C10_counterexample :
    cacheKey (Args.mk "a:" "b" "r" "c" "u" "access" none)
      = cacheKey (Args.mk "a" ":b" "r" "c" "u" "access" none) ∧
    argsSepFree (Args.mk "a:" "b" "r" "c" "u" "access" none) = true ∧
    argsSepFree (Args.mk "a" ":b" "r" "c" "u" "access" none) = true ∧
    Args.mk "a:" "b" "r" "c" "u" "access" none ≠ Args.mk "a" ":b" "r" "c" "u" "access" none := by
  refine ⟨by decide, by decide, by decide, by decide⟩

/-- C10 (amended): restricted to credential sets none of whose seven fields
contains the separator substring `::` and none of whose fields ends with `:`,
the cache-key function is injective: equal keys force all seven fields (with
an absent client secret read as the empty string) to be pairwise equal. -/
theorem C10_cacheKey_injective_amended (a b : Args) (ha : argsSepSafe a = true)
    (hb : argsSepSafe b = true) (heq : cacheKey a = cacheKey b) :
    a.Username = b.Username ∧ a.Password = b.Password ∧ a.Region = b.Region ∧
    a.ClientId = b.ClientId ∧ a.UserPoolId = b.UserPoolId ∧ a.TokenType = b.TokenType ∧
    a.ClientSecret.getD "" = b.ClientSecret.getD "" := by
  simp only [argsSepSafe, fieldSepSafe, Bool.and_eq_true, Bool.not_eq_true'] at ha hb
  obtain ⟨⟨⟨⟨⟨⟨ha1, ha2⟩, ha3⟩, ha4⟩, ha5⟩, ha6⟩, ha7⟩ := ha
  obtain ⟨⟨⟨⟨⟨⟨hb1, hb2⟩, hb3⟩, hb4⟩, hb5⟩, hb6⟩, hb7⟩ := hb
  have hd := congrArg String.data heq
  simp only [cacheKey, String.data_append, List.append_assoc,
    show ("::" : String).data = ':' :: ':' :: ([] : List Char) from rfl,
    List.cons_append, List.nil_append] at hd
  obtain ⟨e1, hd⟩ := joinInj _ _ _ _ ha1.1 ha1.2 hb1.1 hb1.2 hd
  obtain ⟨e2, hd⟩ := joinInj _ _ _ _ ha2.1 ha2.2 hb2.1 hb2.2 hd
  obtain ⟨e3, hd⟩ := joinInj _ _ _ _ ha3.1 ha3.2 hb3.1 hb3.2 hd
  obtain ⟨e4, hd⟩ := joinInj _ _ _ _ ha4.1 ha4.2 hb4.1 hb4.2 hd
  obtain ⟨e5, hd⟩ := joinInj _ _ _ _ ha5.1 ha5.2 hb5.1 hb5.2 hd
  obtain ⟨e6, hd⟩ := joinInj _ _ _ _ ha6.1 ha6.2 hb6.1 hb6.2 hd
  exact ⟨String.ext e1, String.ext e2, String.ext e3, String.ext e4, String.ext e5,
    String.ext e6, String.ext hd⟩

theorem C10_witness :
    wArgs.Username = wArgs.Username ∧ wArgs.Password = wArgs.Password ∧
    wArgs.Region = wArgs.Region ∧ wArgs.ClientId = wArgs.ClientId ∧
    wArgs.UserPoolId = wArgs.UserPoolId ∧ wArgs.TokenType = wArgs.TokenType ∧
    wArgs.ClientSecret.getD "" = wArgs.ClientSecret.getD "" :=
  C10_cacheKey_injective_amended wArgs wArgs (by decide) (by decide) rfl

end Cognito
